import Mathlib

/-!
# AD9361 IIO streaming example: embedding and verified properties

Shallow embedding of `adrv_test_code_51319.c`.  The program talks to the libiio
library and to the C runtime; every such call is recorded as an `Event` in a
trace, and what the library answers is read from an `Env` (an oracle for the
library and the hardware behind it).  A C function becomes a `Prog α`: a function
from the program state (`World`) to an `Outcome`, which is a normal return, one of
the ways the process stops (`exit`, a failed `assert`, undefined behaviour), or
the model's own "out of fuel" for a loop that did not finish within the given
number of steps.

Conventions of the model:

* handles (pointers to contexts, devices, channels, buffers) are natural numbers,
  `none` is `NULL`; using a `NULL` buffer or channel handle is undefined;
* `assert` is active (the program is built without `NDEBUG`);
* `printf`, `perror` and `fprintf(stderr, ..)` are recorded by their format string;
* integers are mathematical integers; where an `ssize_t` result is passed to an
  `int` parameter the conversion is applied (`narrowToInt`);
* a `float` is taken as the rational number it holds; a conversion to `int16_t`
  whose result C leaves undefined yields `none`;
* memory is byte addressed and an `int16_t` is stored little endian; the pointers
  and the stride of a buffer are whatever the library returns, as natural numbers;
* the flag `stop`, set by the signal handler, is read from the oracle at each test
  of the loop condition.
-/

namespace Adrv

/-! ## Data model -/

/-- Direction of a device, the source's `enum iodev`: RX is input, TX is output. -/
inductive iodev where
  | RX
  | TX
  deriving DecidableEq, Repr

/-- Common RX and TX streaming parameters, the source's `struct stream_cfg`. -/
structure stream_cfg where
  bw_hz : Int
  fs_hz : Int
  lo_hz : Int
  rfport : String
  deriving DecidableEq, Repr

/-- Host memory, byte addressed; only the low eight bits of a cell are used. -/
abbrev Mem := Nat → Nat

/-- One observable action of the program: a call into libiio or the C runtime,
or a 16-bit store into a device buffer.  Handles (pointers) are numbers. -/
inductive Event where
  /-- Call of `printf`, `perror` or `fprintf(stderr, ..)`; `text` is the format string. -/
  | print (text : String)
  /-- Call of `iio_context_find_device(ctx, name)`. -/
  | find_device (ctx : Nat) (name : String)
  /-- Call of `iio_device_find_channel(dev, name, output)`. -/
  | find_channel (dev : Nat) (name : String) (output : Bool)
  /-- Call of `iio_channel_attr_write(chn, attr, val)`. -/
  | attr_write (chn : Nat) (attr : String) (val : String)
  /-- Call of `iio_channel_attr_write_longlong(chn, attr, val)`. -/
  | attr_write_longlong (chn : Nat) (attr : String) (val : Int)
  /-- Call of `iio_buffer_destroy(buf)`. -/
  | buffer_destroy (buf : Nat)
  /-- Call of `iio_channel_disable(chn)`. -/
  | channel_disable (chn : Nat)
  /-- Call of `iio_context_destroy(ctx)`. -/
  | context_destroy (ctx : Nat)
  /-- Call of `iio_buffer_push(buf)`; `content` is host memory as handed over. -/
  | buffer_push (buf : Nat) (content : Mem)
  /-- Call of `iio_buffer_refill(buf)`. -/
  | buffer_refill (buf : Nat)
  /-- Call of `fprintf(foutp, ..)`; `text` is the text written to the sink. -/
  | file_write (text : String)
  /-- Load of a 16-bit value from a byte address (RX drain). -/
  | load16 (addr : Nat)
  /-- Store of a 16-bit value at a byte address (TX fill). -/
  | store16 (addr : Nat) (val : Int)
  /-- Call of `fclose` on the source (`true`) or on the sink (`false`). -/
  | fclose (source : Bool)
  /-- Call of `exit(code)`. -/
  | exit (code : Int)

/-- The static handles of the source; `none` is `NULL`. -/
structure Globals where
  ctx : Option Nat
  rx0_i : Option Nat
  rx0_q : Option Nat
  tx0_i : Option Nat
  tx0_q : Option Nat
  rxbuf : Option Nat
  txbuf : Option Nat
  deriving DecidableEq, Repr

/-- Program state: the static handles, host memory, and the trace so far. -/
structure World where
  g : Globals
  mem : Mem
  trace : List Event

/-- How a piece of the program ends. -/
inductive Outcome (α : Type) where
  /-- Normal return with a value. -/
  | ret (a : α) (w : World)
  /-- The process ended in `exit(code)`. -/
  | exited (code : Int) (w : World)
  /-- The process ended in a failed `assert`. -/
  | aborted (w : World)
  /-- Behaviour the C standard leaves undefined (NULL handle used, read outside an array). -/
  | undefined (w : World)
  /-- The model ran out of fuel: the loop did not finish within the given steps. -/
  | outOfFuel (w : World)

/-- The state in which an outcome leaves the program. -/
def Outcome.world {α : Type} : Outcome α → World
  | .ret _ w => w
  | .exited _ w => w
  | .aborted w => w
  | .undefined w => w
  | .outOfFuel w => w

/-- A piece of the program. -/
abbrev Prog (α : Type) := World → Outcome α

/-- Sequencing: what follows runs only after a normal return. -/
def Prog.bind {α β : Type} (m : Prog α) (f : α → Prog β) : Prog β := fun w =>
  match m w with
  | .ret a w1 => f a w1
  | .exited c w1 => .exited c w1
  | .aborted w1 => .aborted w1
  | .undefined w1 => .undefined w1
  | .outOfFuel w1 => .outOfFuel w1

instance : Monad Prog where
  pure a := fun w => .ret a w
  bind := Prog.bind

/-- Append one event to the trace. -/
def emit (e : Event) : Prog Unit := fun w =>
  .ret () { w with trace := w.trace ++ [e] }

/-- Read the static handles. -/
def getGlobals : Prog Globals := fun w => .ret w.g w

/-- The C runtime's `exit`: recorded, and nothing runs after it. -/
def exit {α : Type} (code : Int) : Prog α := fun w =>
  .exited code { w with trace := w.trace ++ [Event.exit code] }

/-- A failed `assert`. -/
def abort {α : Type} : Prog α := fun w => .aborted w

/-- Run `f` on the handle when it is not `NULL` (the source's `if (h) { f(h); }`). -/
def whenSome (h : Option Nat) (f : Nat → Prog Unit) : Prog Unit :=
  match h with
  | some p => f p
  | none => pure ()

/-! ## `shutdown` -/

/-- Cleanup and exit, the source's `shutdown`. -/
def shutdown : Prog Unit := do
  emit (.print "* Destroying buffers\n")
  let g ← getGlobals
  whenSome g.rxbuf fun b => emit (.buffer_destroy b)
  whenSome g.txbuf fun b => emit (.buffer_destroy b)
  emit (.print "* Disabling streaming channels\n")
  whenSome g.rx0_i fun c => emit (.channel_disable c)
  whenSome g.rx0_q fun c => emit (.channel_disable c)
  whenSome g.tx0_i fun c => emit (.channel_disable c)
  whenSome g.tx0_q fun c => emit (.channel_disable c)
  emit (.print "* Destroying context\n")
  whenSome g.ctx fun c => emit (.context_destroy c)
  exit 0

/-- The events of one run of `shutdown` from handles `g`, in order. -/
def shutdownTrace (g : Globals) : List Event :=
  [.print "* Destroying buffers\n"]
    ++ g.rxbuf.toList.map .buffer_destroy
    ++ g.txbuf.toList.map .buffer_destroy
    ++ [.print "* Disabling streaming channels\n"]
    ++ g.rx0_i.toList.map .channel_disable
    ++ g.rx0_q.toList.map .channel_disable
    ++ g.tx0_i.toList.map .channel_disable
    ++ g.tx0_q.toList.map .channel_disable
    ++ [.print "* Destroying context\n"]
    ++ g.ctx.toList.map .context_destroy
    ++ [.exit 0]

/-- Whether an event releases a resource (buffer, channel or context). -/
def Event.isRelease : Event → Bool
  | .buffer_destroy _ => true
  | .channel_disable _ => true
  | .context_destroy _ => true
  | _ => false

/-- Whether an event is a buffer destruction. -/
def Event.isBufferDestroy : Event → Bool
  | .buffer_destroy _ => true
  | _ => false

/-- Whether an event is the call of `exit`. -/
def Event.isExit : Event → Bool
  | .exit _ => true
  | _ => false

/-! ## The library as an oracle -/

/-- What libiio and the outside world answer.  Lookups and attribute writes are
functions of their arguments; what concerns the streaming loop is indexed by the
number of the loop iteration in which the call is made. -/
structure Env where
  /-- Result of `iio_context_find_device(ctx, name)`. -/
  find_device : Nat → String → Option Nat
  /-- Result of `iio_device_find_channel(dev, name, output)`. -/
  find_channel : Nat → String → Bool → Option Nat
  /-- Return value of `iio_channel_attr_write(chn, attr, val)`, an `ssize_t`. -/
  attr_write : Nat → String → String → Int
  /-- Return value of `iio_channel_attr_write_longlong(chn, attr, val)`, an `int`. -/
  attr_write_longlong : Nat → String → Int → Int
  /-- Value of the flag `stop` when the loop condition is tested for iteration `n`
  (the flag is set by the signal handler). -/
  stop : Nat → Bool
  /-- Return value of `iio_buffer_push` in iteration `n`. -/
  push_ret : Nat → Int
  /-- Host memory after `iio_buffer_push` in iteration `n`. -/
  push_mem : Nat → Mem → Mem
  /-- Return value of `iio_buffer_refill` in iteration `n`. -/
  refill_ret : Nat → Int
  /-- Host memory after `iio_buffer_refill` in iteration `n` (the capture). -/
  refill_mem : Nat → Mem → Mem
  /-- Result of `iio_buffer_first(buf, chn)` in iteration `n`. -/
  buffer_first : Nat → Nat → Nat → Nat
  /-- Result of `iio_buffer_end(buf)` in iteration `n`. -/
  buffer_end : Nat → Nat → Nat
  /-- Result of `iio_buffer_step(buf)` in iteration `n`, a byte count. -/
  buffer_step : Nat → Nat → Nat

/-! ## Attribute writes -/

/-- The message of `errchk` (its format string). -/
def errchkMsg : Event :=
  .print "Error %d writing to channel \"%s\"\nvalue may not be supported.\n"

/-- Check the return value of an attribute write, the source's `errchk`; `v` is
an `int`. -/
def errchk (v : Int) (_what : String) : Prog Unit :=
  if v < 0 then do
    emit errchkMsg
    shutdown
  else pure ()

/-- Write a `long long` attribute, the source's `wr_ch_lli`. -/
def wr_ch_lli (env : Env) (chn : Nat) (what : String) (val : Int) : Prog Unit := do
  emit (.attr_write_longlong chn what val)
  errchk (env.attr_write_longlong chn what val) what

/-- Conversion of an `ssize_t` to `int` at a call whose parameter is an `int`: the
value is reduced modulo `2^32` into the range of `int` (gcc and clang define it so). -/
def narrowToInt (v : Int) : Int :=
  (v + 2147483648) % 4294967296 - 2147483648

/-- Write a string attribute, the source's `wr_ch_str`: `iio_channel_attr_write`
returns an `ssize_t`, which is converted to the `int` parameter of `errchk`. -/
def wr_ch_str (env : Env) (chn : Nat) (what : String) (str : String) : Prog Unit := do
  emit (.attr_write chn what str)
  errchk (narrowToInt (env.attr_write chn what str)) what

/-! ## Device and channel lookup -/

/-- Channel name, the source's `get_ch_name`: `snprintf` of `"%s%d"` into the
64-byte scratch string, so at most 63 characters are kept. -/
def get_ch_name (type : String) (id : Int) : String :=
  String.mk ((type.data ++ (toString id).data).take 63)

/-- The ad9361 phy device, the source's `get_ad9361_phy`; the `assert` stops the
process when the device is missing. -/
def get_ad9361_phy (env : Env) (ctx : Nat) : Prog Nat := do
  emit (.find_device ctx "ad9361-phy")
  match env.find_device ctx "ad9361-phy" with
  | some dev => pure dev
  | none => abort

/-- The streaming device of a direction, the source's `get_ad9361_stream_dev`:
the returned flag and the value left in `*dev`. -/
def get_ad9361_stream_dev (env : Env) (ctx : Nat) (d : iodev) : Prog (Bool × Option Nat) :=
  match d with
  | .TX => do
    emit (.find_device ctx "cf-ad9361-dds-core-lpc")
    let dev := env.find_device ctx "cf-ad9361-dds-core-lpc"
    pure (dev.isSome, dev)
  | .RX => do
    emit (.find_device ctx "cf-ad9361-lpc")
    let dev := env.find_device ctx "cf-ad9361-lpc"
    pure (dev.isSome, dev)

/-- A streaming channel, the source's `get_ad9361_stream_ch`: the returned flag
and the value left in `*chn`. -/
def get_ad9361_stream_ch (env : Env) (d : iodev) (dev : Nat) (chid : Int) :
    Prog (Bool × Option Nat) := do
  emit (.find_channel dev (get_ch_name "voltage" chid) (d == .TX))
  let chn := env.find_channel dev (get_ch_name "voltage" chid) (d == .TX)
  match chn with
  | some c => pure (true, some c)
  | none => do
    emit (.find_channel dev (get_ch_name "altvoltage" chid) (d == .TX))
    let chn := env.find_channel dev (get_ch_name "altvoltage" chid) (d == .TX)
    pure (chn.isSome, chn)

/-- The phy configuration channel with id `chid`, the source's `get_phy_chan`. -/
def get_phy_chan (env : Env) (ctx : Nat) (d : iodev) (chid : Int) :
    Prog (Bool × Option Nat) :=
  match d with
  | .RX => do
    let phy ← get_ad9361_phy env ctx
    emit (.find_channel phy (get_ch_name "voltage" chid) false)
    let chn := env.find_channel phy (get_ch_name "voltage" chid) false
    pure (chn.isSome, chn)
  | .TX => do
    let phy ← get_ad9361_phy env ctx
    emit (.find_channel phy (get_ch_name "voltage" chid) true)
    let chn := env.find_channel phy (get_ch_name "voltage" chid) true
    pure (chn.isSome, chn)

/-- The local oscillator channel of a direction, the source's `get_lo_chan`;
the LO channel is always an output channel.  (The source text lacks the closing
brace of this function; its evident structure is embedded.) -/
def get_lo_chan (env : Env) (ctx : Nat) (d : iodev) : Prog (Bool × Option Nat) :=
  match d with
  | .RX => do
    let phy ← get_ad9361_phy env ctx
    emit (.find_channel phy (get_ch_name "altvoltage" 0) true)
    let chn := env.find_channel phy (get_ch_name "altvoltage" 0) true
    pure (chn.isSome, chn)
  | .TX => do
    let phy ← get_ad9361_phy env ctx
    emit (.find_channel phy (get_ch_name "altvoltage" 1) true)
    let chn := env.find_channel phy (get_ch_name "altvoltage" 1) true
    pure (chn.isSome, chn)

/-! ## Stream configuration -/

/-- Apply a streaming configuration, the source's `cfg_ad9361_streaming_ch`. -/
def cfg_ad9361_streaming_ch (env : Env) (ctx : Nat) (cfg : stream_cfg) (type : iodev)
    (chid : Int) : Prog Bool := do
  emit (.print "* Acquiring AD9361 phy channel %d\n")
  let r ← get_phy_chan env ctx type chid
  match r.2 with
  | none => pure false
  | some chn => do
    wr_ch_str env chn "rf_port_select" cfg.rfport
    wr_ch_lli env chn "rf_bandwidth" cfg.bw_hz
    wr_ch_lli env chn "sampling_frequency" cfg.fs_hz
    emit (.print "* Acquiring AD9361 %s lo channel\n")
    let r ← get_lo_chan env ctx type
    match r.2 with
    | none => pure false
    | some chn => do
      wr_ch_lli env chn "frequency" cfg.lo_hz
      pure true

/-- Whether an event is an attribute write. -/
def Event.isAttrWrite : Event → Bool
  | .attr_write _ _ _ => true
  | .attr_write_longlong _ _ _ => true
  | _ => false

/-! ## Sample table pre-load -/

/-- One line of the sample source: the four values `i1,q1,i2,q2` as stored in the
`float` variables, each taken as the exact rational value of the float. -/
structure Record where
  i1 : ℚ
  q1 : ℚ
  i2 : ℚ
  q2 : ℚ

/-- One row of `QPSKsamplesTX`: four `int16_t` values. -/
structure Row where
  c0 : Int
  c1 : Int
  c2 : Int
  c3 : Int
  deriving DecidableEq, Repr

/-- Conversion of a real floating value to `int16_t`: the fractional part is
discarded (truncation toward zero); `none` when the integral part is not
representable, which C leaves undefined. -/
def toInt16 (x : ℚ) : Option Int :=
  let t := Int.tdiv x.num (x.den : Int)
  if -32768 ≤ t ∧ t ≤ 32767 then some t else none

/-- The source's `(int16_t)x*3200.0` assigned to an `int16_t`: the cast applies to
`x` alone, the product of the resulting integer with `3200.0` is computed in
`double` (exactly, the integer being small) and converted to `int16_t`. -/
def scaleSample (x : ℚ) : Option Int :=
  match toInt16 x with
  | none => none
  | some t => toInt16 ((t : ℚ) * 3200)

/-- The four assignments of one pre-load step. -/
def scaleRow (r : Record) : Option Row :=
  match scaleSample r.i1, scaleSample r.q1, scaleSample r.i2, scaleSample r.q2 with
  | some a, some b, some c, some d => some ⟨a, b, c, d⟩
  | _, _, _, _ => none

/-- One `fscanf(finp, "%f,%f,%f,%f\n", ..)` on a source that holds the records
`src`: a record that is there is stored into the four variables; at the end of
the source nothing is stored and the variables keep their values.  `vars` is
`none` while the variables are uninitialised. -/
def fscanfRecord (src : List Record) (vars : Option Record) : List Record × Option Record :=
  match src with
  | [] => ([], vars)
  | r :: rest => (rest, some r)

/-- The pre-load loop `for (iter = 0; iter < 4200; iter++)` with `n` iterations
left: the rows it stores, or `none` when a step reads an uninitialised
variable or converts a value that `int16_t` cannot hold. -/
def preloadLoop : Nat → List Record → Option Record → Option (List Row)
  | 0, _, _ => some []
  | n + 1, src, vars =>
    match (fscanfRecord src vars).2 with
    | none => none
    | some r =>
      match scaleRow r, preloadLoop n (fscanfRecord src vars).1 (some r) with
      | some row, some rows => some (row :: rows)
      | _, _ => none

/-- The number of frames of a buffer and of rows of `QPSKsamplesTX`. -/
def bufferSize : Nat := 4200

/-- The table `QPSKsamplesTX` after the pre-load loop. -/
def preload (src : List Record) : Option (List Row) :=
  preloadLoop bufferSize src none

/-! ## The streaming loop -/

/-- Load of an `int16_t` at byte address `p` (little endian). -/
def read16 (m : Mem) (p : Nat) : Int :=
  let u := m p % 256 + 256 * (m (p + 1) % 256)
  if u < 32768 then (u : Int) else (u : Int) - 65536

/-- Store of an `int16_t` at byte address `p` (little endian). -/
def write16 (m : Mem) (p : Nat) (v : Int) : Mem :=
  fun a =>
    if a = p then (v % 65536).toNat % 256
    else if a = p + 1 then (v % 65536).toNat / 256
    else m a

/-- The line `fprintf(foutp, "%d,%d\n", i, q)` writes. -/
def csvLine (i q : Int) : String :=
  toString i ++ "," ++ toString q ++ "\n"

/-- A 16-bit load from a buffer, recorded in the trace. -/
def load (p : Nat) : Prog Int := fun w =>
  .ret (read16 w.mem p) { w with trace := w.trace ++ [.load16 p] }

/-- A 16-bit store into a buffer, recorded in the trace. -/
def store (p : Nat) (v : Int) : Prog Unit := fun w =>
  .ret () { w with mem := write16 w.mem p v, trace := w.trace ++ [.store16 p v] }

/-- The RX drain loop `for (p_dat = ..; p_dat < p_end; p_dat += p_inc)`, from
the current `p_dat`. -/
def drainLoop : Nat → Nat → Nat → Nat → Prog Unit
  | 0, _, _, _ => fun w => .outOfFuel w
  | fuel + 1, p_dat, p_end, p_inc =>
    if p_dat < p_end then do
      let i ← load p_dat
      let q ← load (p_dat + 2)
      emit (.file_write (csvLine i q))
      drainLoop fuel (p_dat + p_inc) p_end p_inc
    else pure ()

/-- The TX fill loop, from the current `p_dat` and `iter`; reading a row outside
`QPSKsamplesTX` is undefined. -/
def fillLoop (tbl : List Row) : Nat → Nat → Nat → Nat → Nat → Prog Unit
  | 0, _, _, _, _ => fun w => .outOfFuel w
  | fuel + 1, p_dat, p_end, p_inc, iter =>
    if p_dat < p_end then
      match tbl.get? iter with
      | none => fun w => .undefined w
      | some row => do
        store p_dat row.c0
        store (p_dat + 2) row.c1
        fillLoop tbl fuel (p_dat + p_inc) p_end p_inc (iter + 1)
    else pure ()

/-- Schedule the TX buffer, with the check of the result (iteration `n`). -/
def pushPhase (env : Env) (n : Nat) : Prog Unit := fun w =>
  match w.g.txbuf with
  | none => .undefined w
  | some b =>
    let w1 : World :=
      { w with mem := env.push_mem n w.mem, trace := w.trace ++ [.buffer_push b w.mem] }
    if env.push_ret n < 0 then
      (do emit (.print "Error pushing buf %d\n"); shutdown) w1
    else .ret () w1

/-- Refill the RX buffer, with the check of the result (iteration `n`). -/
def refillPhase (env : Env) (n : Nat) : Prog Unit := fun w =>
  match w.g.rxbuf with
  | none => .undefined w
  | some b =>
    let w1 : World :=
      { w with mem := env.refill_mem n w.mem, trace := w.trace ++ [.buffer_refill b] }
    if env.refill_ret n < 0 then
      (do emit (.print "Error refilling buf %d\n"); shutdown) w1
    else .ret () w1

/-- The RX drain of iteration `n`: step, end and first pointer are asked of the
library (the first pointer for channel `rx0_q`), then the loop runs. -/
def drainPhase (env : Env) (fuel n : Nat) : Prog Unit := fun w =>
  match w.g.rxbuf, w.g.rx0_q with
  | some b, some c =>
    drainLoop fuel (env.buffer_first n b c) (env.buffer_end n b) (env.buffer_step n b) w
  | _, _ => .undefined w

/-- The TX fill of iteration `n`: step, end and first pointer are asked of the
library (the first pointer for channel `tx0_q`), then the loop runs from
`iter = 0`. -/
def fillPhase (env : Env) (tbl : List Row) (fuel n : Nat) : Prog Unit := fun w =>
  match w.g.txbuf, w.g.tx0_q with
  | some b, some c =>
    fillLoop tbl fuel (env.buffer_first n b c) (env.buffer_end n b) (env.buffer_step n b) 0 w
  | _, _ => .undefined w

/-- The body of the streaming loop, iteration `n`; `inner` is the fuel of the
two inner loops. -/
def iteration (env : Env) (tbl : List Row) (inner n : Nat) : Prog Unit := do
  pushPhase env n
  refillPhase env n
  drainPhase env inner n
  fillPhase env tbl inner n

/-- The loop `while (!stop)`, from the test before iteration `n`; `fuel` bounds
the number of tests of the loop condition. -/
def streamLoop (env : Env) (tbl : List Row) (inner : Nat) : Nat → Nat → Prog Unit
  | 0, _ => fun w => .outOfFuel w
  | fuel + 1, n =>
    if env.stop n then pure ()
    else do
      iteration env tbl inner n
      streamLoop env tbl inner fuel (n + 1)

/-- The part of `main` that follows the creation of the buffers: the pre-load of
the sample table from the source holding `src`, the streaming loop, and the
final cleanup. -/
def mainStream (env : Env) (src : List Record) (inner fuel : Nat) : Prog Int :=
  match preload src with
  | none => fun w => .undefined w
  | some tbl => do
    emit (.print "* Starting IO streaming (press CTRL+C to cancel)\n")
    streamLoop env tbl inner fuel 0
    emit (.fclose true)
    emit (.fclose false)
    shutdown
    pure 0

/-! ## Auxiliary definitions for the statements -/

/-- Whether an event belongs to the RX drain: a load or a line written to the sink. -/
def Event.isDrain : Event → Bool
  | .load16 _ => true
  | .file_write _ => true
  | _ => false

/-- Whether an event is a store into a buffer. -/
def Event.isStore : Event → Bool
  | .store16 _ _ => true
  | _ => false

/-- Whether an event is a call of `iio_buffer_refill`. -/
def Event.isRefill : Event → Bool
  | .buffer_refill _ => true
  | _ => false

/-- The text an event writes to the sink, if it writes one. -/
def Event.fileText : Event → Option String
  | .file_write t => some t
  | _ => none

/-- The events of a drain over `frames` frames that start at `p` and lie `step`
bytes apart, in memory `m`. -/
def drainEvents (m : Mem) (step : Nat) : Nat → Nat → List Event
  | 0, _ => []
  | frames + 1, p =>
    [.load16 p, .load16 (p + 2), .file_write (csvLine (read16 m p) (read16 m (p + 2)))]
      ++ drainEvents m step frames (p + step)

/-- The events of a fill that writes `rows` into the frames from `p` on. -/
def fillEvents (step : Nat) : List Row → Nat → List Event
  | [], _ => []
  | row :: rows, p =>
    [.store16 p row.c0, .store16 (p + 2) row.c1] ++ fillEvents step rows (p + step)

/-- Memory after a fill that writes `rows` into the frames from `p` on. -/
def fillMem (step : Nat) : List Row → Nat → Mem → Mem
  | [], _, m => m
  | row :: rows, p, m => fillMem step rows (p + step) (write16 (write16 m p row.c0) (p + 2) row.c1)

/-- The state at the test of the loop condition before iteration `n`, when the
loop started in `w0` gets there: every earlier test found `stop` clear and every
earlier iteration returned. -/
def stateAt (env : Env) (tbl : List Row) (inner : Nat) (w0 : World) : Nat → Option World
  | 0 => some w0
  | n + 1 =>
    match stateAt env tbl inner w0 n with
    | none => none
    | some w =>
      if env.stop n then none
      else
        match iteration env tbl inner n w with
        | .ret _ w1 => some w1
        | _ => none

/-- Whether the first two values of a row are `int16_t` values. -/
def Row.inRange (row : Row) : Prop :=
  (-32768 ≤ row.c0 ∧ row.c0 ≤ 32767) ∧ (-32768 ≤ row.c1 ∧ row.c1 ≤ 32767)

/-- A piece of the program only appends to the trace. -/
def Extends {α : Type} (m : Prog α) : Prop :=
  ∀ w, ∃ sfx, (m w).world.trace = w.trace ++ sfx

/-! ## Concrete inputs for the worked examples -/

/-- An environment in which every lookup succeeds, the write of
`sampling_frequency` is rejected, every transfer succeeds but the refill of
iteration 5, and both buffers have `frames` frames of four bytes: the RX buffer
(handle 7) from address 0, the TX buffer from address 100000. -/
def exampleEnv (frames : Nat) : Env where
  find_device := fun _ _ => some 1
  find_channel := fun _ _ output => some (if output then 3 else 2)
  attr_write := fun _ _ _ => 0
  attr_write_longlong := fun _ attr _ => if attr = "sampling_frequency" then -22 else 0
  stop := fun _ => false
  push_ret := fun _ => 0
  push_mem := fun _ m => m
  refill_ret := fun n => if n = 5 then -1 else 0
  refill_mem := fun _ m => m
  buffer_first := fun _ buf _ => if buf = 7 then 0 else 100000
  buffer_end := fun _ buf => if buf = 7 then frames * 4 else 100000 + frames * 4
  buffer_step := fun _ _ => 4

/-- The environment `exampleEnv` with the pointers libiio returns when the I and
the Q channel of a device are enabled, 16 bits each: `iio_buffer_first` points at
the first sample of the channel asked for, which for a Q channel (handles 3 and 5)
lies two bytes after the start of the buffer. -/
def libiioEnv (frames : Nat) : Env :=
  { exampleEnv frames with
    buffer_first := fun _ buf chn =>
      (if buf = 7 then 0 else 100000) + (if chn = 3 ∨ chn = 5 then 2 else 0) }

/-- The environment `exampleEnv` with an `iio_channel_attr_write` that returns
`4294967295`, an `ssize_t` that the conversion to `int` turns into `-1`. -/
def wrapEnv : Env :=
  { exampleEnv 2 with attr_write := fun _ _ _ => 4294967295 }

/-- Memory that holds an RX buffer of two frames from address 0, with the samples
`I = 1, Q = -2` and `I = 3, Q = 4`, followed by the bytes of the value 7 at the
end marker, address 8. -/
def sampleMem : Mem := fun a =>
  if a = 0 then 1 else if a = 2 then 254 else if a = 3 then 255 else if a = 4 then 3
  else if a = 6 then 4 else if a = 8 then 7 else 0

/-- The handles as `main` has them when the streaming loop starts. -/
def exampleGlobals : Globals :=
  { ctx := some 1, rx0_i := some 2, rx0_q := some 3, tx0_i := some 4, tx0_q := some 5,
    rxbuf := some 7, txbuf := some 8 }

/-- The handles before the TX channels and the buffers exist. -/
def partialGlobals : Globals :=
  { ctx := some 1, rx0_i := some 2, rx0_q := some 3, tx0_i := none, tx0_q := none,
    rxbuf := none, txbuf := none }

/-- A state with these handles, zeroed memory and an empty trace. -/
def exampleWorld : World :=
  { g := exampleGlobals, mem := fun _ => 0, trace := [] }

/-- A state with these handles, the memory `sampleMem` and an empty trace. -/
def sampleWorld : World :=
  { g := exampleGlobals, mem := sampleMem, trace := [] }

/-- The RX configuration of `main`. -/
def exampleCfg : stream_cfg :=
  { bw_hz := 16000000, fs_hz := 30720000, lo_hz := 2400000000, rfport := "A_BALANCED" }

/-- A sample table of two rows. -/
def exampleTbl : List Row := [⟨1, 2, 3, 4⟩, ⟨5, 6, 7, 8⟩]

/-- A source of two records. -/
def shortSrc : List Record := [⟨1, 2, 3, 4⟩, ⟨3, 4, 5, 6⟩]

@[simp] theorem bind_apply {α β : Type} (m : Prog α) (f : α → Prog β) (w : World) :
    (m >>= f) w = Prog.bind m f w := rfl

@[simp] theorem pure_apply {α : Type} (a : α) (w : World) :
    (pure a : Prog α) w = .ret a w := rfl

@[simp] theorem emit_apply (e : Event) (w : World) :
    emit e w = .ret () { w with trace := w.trace ++ [e] } := rfl

@[simp] theorem getGlobals_apply (w : World) : getGlobals w = .ret w.g w := rfl

@[simp] theorem exit_apply {α : Type} (c : Int) (w : World) :
    (exit c : Prog α) w = .exited c { w with trace := w.trace ++ [Event.exit c] } := rfl

theorem whenSome_emit (h : Option Nat) (e : Nat → Event) (w : World) :
    whenSome h (fun p => emit (e p)) w
      = .ret () { w with trace := w.trace ++ h.toList.map e } := by
  cases h <;> simp [whenSome]

/-- What `shutdown` does, exactly. -/
theorem shutdown_eq (w : World) :
    shutdown w = .exited 0 { w with trace := w.trace ++ shutdownTrace w.g } := by
  simp [shutdown, Prog.bind, whenSome_emit, shutdownTrace, List.append_assoc]

theorem filter_map_toList_eq (p : Event → Bool) (f : Nat → Event) (o : Option Nat)
    (h : ∀ x, p (f x) = true) : (o.toList.map f).filter p = o.toList.map f := by
  cases o <;> simp [h]

theorem filter_map_toList_nil (p : Event → Bool) (f : Nat → Event) (o : Option Nat)
    (h : ∀ x, p (f x) = false) : (o.toList.map f).filter p = [] := by
  cases o <;> simp [h]

theorem shutdownTrace_release (g : Globals) :
    (shutdownTrace g).filter Event.isRelease =
      g.rxbuf.toList.map .buffer_destroy ++ g.txbuf.toList.map .buffer_destroy
        ++ g.rx0_i.toList.map .channel_disable ++ g.rx0_q.toList.map .channel_disable
        ++ g.tx0_i.toList.map .channel_disable ++ g.tx0_q.toList.map .channel_disable
        ++ g.ctx.toList.map .context_destroy := by
  simp only [shutdownTrace, List.filter_append]
  rw [filter_map_toList_eq _ _ g.rxbuf (fun _ => rfl), filter_map_toList_eq _ _ g.txbuf (fun _ => rfl),
    filter_map_toList_eq _ _ g.rx0_i (fun _ => rfl), filter_map_toList_eq _ _ g.rx0_q (fun _ => rfl),
    filter_map_toList_eq _ _ g.tx0_i (fun _ => rfl), filter_map_toList_eq _ _ g.tx0_q (fun _ => rfl),
    filter_map_toList_eq _ _ g.ctx (fun _ => rfl)]
  simp [Event.isRelease]

theorem shutdownTrace_bufferDestroy (g : Globals) :
    (shutdownTrace g).filter Event.isBufferDestroy =
      g.rxbuf.toList.map .buffer_destroy ++ g.txbuf.toList.map .buffer_destroy := by
  simp only [shutdownTrace, List.filter_append]
  rw [filter_map_toList_eq _ _ g.rxbuf (fun _ => rfl), filter_map_toList_eq _ _ g.txbuf (fun _ => rfl),
    filter_map_toList_nil _ _ g.rx0_i (fun _ => rfl), filter_map_toList_nil _ _ g.rx0_q (fun _ => rfl),
    filter_map_toList_nil _ _ g.tx0_i (fun _ => rfl), filter_map_toList_nil _ _ g.tx0_q (fun _ => rfl),
    filter_map_toList_nil _ _ g.ctx (fun _ => rfl)]
  simp [Event.isBufferDestroy]

theorem shutdownTrace_exit (g : Globals) :
    (shutdownTrace g).filter Event.isExit = [.exit 0] := by
  simp only [shutdownTrace, List.filter_append]
  rw [filter_map_toList_nil _ _ g.rxbuf (fun _ => rfl), filter_map_toList_nil _ _ g.txbuf (fun _ => rfl),
    filter_map_toList_nil _ _ g.rx0_i (fun _ => rfl), filter_map_toList_nil _ _ g.rx0_q (fun _ => rfl),
    filter_map_toList_nil _ _ g.tx0_i (fun _ => rfl), filter_map_toList_nil _ _ g.tx0_q (fun _ => rfl),
    filter_map_toList_nil _ _ g.ctx (fun _ => rfl)]
  simp [Event.isExit]

theorem shutdownTrace_getLast (g : Globals) : (shutdownTrace g).getLast? = some (.exit 0) := by
  unfold shutdownTrace
  exact List.getLast?_concat _

theorem toString_int_length (id : Int) (h : -2147483648 ≤ id ∧ id ≤ 2147483647) :
    (toString id).length ≤ 11 := by
  cases id with
  | ofNat m =>
    have hm : m ≤ 2147483647 := by
      have := h.2
      simp only [Int.ofNat_eq_coe] at this
      omega
    have h1 : (Nat.repr m).length ≤ 10 := Nat.repr_length m 10 (by decide) (by omega)
    show (Nat.repr m).length ≤ 11
    omega
  | negSucc m =>
    have hm : m ≤ 2147483647 := by
      have := h.1
      simp only [Int.negSucc_eq] at this
      omega
    have h1 : (Nat.repr (m + 1)).length ≤ 10 := Nat.repr_length (m + 1) 10 (by decide) (by omega)
    show ("-" ++ Nat.repr (m + 1)).length ≤ 11
    rw [String.length_append]
    have : "-".length = 1 := by decide
    omega

theorem get_ch_name_eq (type : String) (id : Int) (ht : type.length ≤ 52)
    (h : -2147483648 ≤ id ∧ id ≤ 2147483647) :
    get_ch_name type id = type ++ toString id := by
  have h1 := toString_int_length id h
  unfold get_ch_name
  rw [List.take_of_length_le]
  · rfl
  · rw [List.length_append]
    show type.length + (toString id).length ≤ 63
    omega

theorem voltage_ne_altvoltage (s : String) : "voltage" ++ s ≠ "altvoltage" ++ s := by
  intro h
  have := congrArg String.length h
  simp only [String.length_append] at this
  have h1 : "voltage".length = 7 := by decide
  have h2 : "altvoltage".length = 10 := by decide
  omega

theorem get_ad9361_stream_ch_eq (env : Env) (d : iodev) (dev : Nat) (chid : Int) (w : World) :
    get_ad9361_stream_ch env d dev chid w =
      match env.find_channel dev (get_ch_name "voltage" chid) (d == .TX) with
      | some c =>
        .ret (true, some c)
          { w with trace := w.trace ++ [.find_channel dev (get_ch_name "voltage" chid) (d == .TX)] }
      | none =>
        .ret ((env.find_channel dev (get_ch_name "altvoltage" chid) (d == .TX)).isSome,
            env.find_channel dev (get_ch_name "altvoltage" chid) (d == .TX))
          { w with trace := w.trace ++ [.find_channel dev (get_ch_name "voltage" chid) (d == .TX),
              .find_channel dev (get_ch_name "altvoltage" chid) (d == .TX)] } := by
  unfold get_ad9361_stream_ch
  cases h : env.find_channel dev (get_ch_name "voltage" chid) (d == .TX) <;>
    simp [Prog.bind, h]

theorem shutdownTrace_attrWrite (g : Globals) :
    (shutdownTrace g).filter Event.isAttrWrite = [] := by
  simp only [shutdownTrace, List.filter_append]
  rw [filter_map_toList_nil _ _ g.rxbuf (fun _ => rfl), filter_map_toList_nil _ _ g.txbuf (fun _ => rfl),
    filter_map_toList_nil _ _ g.rx0_i (fun _ => rfl), filter_map_toList_nil _ _ g.rx0_q (fun _ => rfl),
    filter_map_toList_nil _ _ g.tx0_i (fun _ => rfl), filter_map_toList_nil _ _ g.tx0_q (fun _ => rfl),
    filter_map_toList_nil _ _ g.ctx (fun _ => rfl)]
  simp [Event.isAttrWrite]

theorem errchk_eq (v : Int) (what : String) (w : World) :
    errchk v what w =
      if v < 0 then
        .exited 0 { w with trace := w.trace ++
          (errchkMsg :: shutdownTrace w.g) }
      else .ret () w := by
  unfold errchk
  split <;> simp [Prog.bind, shutdown_eq]

theorem wr_ch_lli_eq (env : Env) (chn : Nat) (what : String) (val : Int) (w : World) :
    wr_ch_lli env chn what val w =
      if env.attr_write_longlong chn what val < 0 then
        .exited 0 { w with trace := w.trace ++
          (.attr_write_longlong chn what val ::
           errchkMsg :: shutdownTrace w.g) }
      else .ret () { w with trace := w.trace ++ [.attr_write_longlong chn what val] } := by
  unfold wr_ch_lli
  simp only [bind_apply, Prog.bind, emit_apply, errchk_eq]
  split <;> simp

theorem wr_ch_str_eq (env : Env) (chn : Nat) (what : String) (val : String) (w : World) :
    wr_ch_str env chn what val w =
      if narrowToInt (env.attr_write chn what val) < 0 then
        .exited 0 { w with trace := w.trace ++
          (.attr_write chn what val ::
           errchkMsg :: shutdownTrace w.g) }
      else .ret () { w with trace := w.trace ++ [.attr_write chn what val] } := by
  unfold wr_ch_str
  simp only [bind_apply, Prog.bind, emit_apply, errchk_eq]
  split <;> simp

theorem get_ad9361_phy_eq (env : Env) (ctx : Nat) (w : World) :
    get_ad9361_phy env ctx w =
      match env.find_device ctx "ad9361-phy" with
      | some dev => .ret dev { w with trace := w.trace ++ [.find_device ctx "ad9361-phy"] }
      | none => .aborted { w with trace := w.trace ++ [.find_device ctx "ad9361-phy"] } := by
  unfold get_ad9361_phy
  cases h : env.find_device ctx "ad9361-phy" <;> simp [Prog.bind, h, abort]

theorem get_phy_chan_eq (env : Env) (ctx : Nat) (d : iodev) (chid : Int) (w : World) (phy : Nat)
    (hphy : env.find_device ctx "ad9361-phy" = some phy) :
    get_phy_chan env ctx d chid w =
      .ret ((env.find_channel phy (get_ch_name "voltage" chid) (d == .TX)).isSome,
          env.find_channel phy (get_ch_name "voltage" chid) (d == .TX))
        { w with trace := w.trace ++ [.find_device ctx "ad9361-phy",
            .find_channel phy (get_ch_name "voltage" chid) (d == .TX)] } := by
  have hf : (iodev.RX == iodev.TX) = false := by decide
  have ht : (iodev.TX == iodev.TX) = true := by decide
  cases d <;> simp [get_phy_chan, Prog.bind, get_ad9361_phy_eq, hphy, hf, ht]

theorem get_lo_chan_eq (env : Env) (ctx : Nat) (d : iodev) (w : World) (phy : Nat)
    (hphy : env.find_device ctx "ad9361-phy" = some phy) :
    get_lo_chan env ctx d w =
      .ret ((env.find_channel phy (get_ch_name "altvoltage" (if d = .TX then 1 else 0)) true).isSome,
          env.find_channel phy (get_ch_name "altvoltage" (if d = .TX then 1 else 0)) true)
        { w with trace := w.trace ++ [.find_device ctx "ad9361-phy",
            .find_channel phy (get_ch_name "altvoltage" (if d = .TX then 1 else 0)) true] } := by
  cases d <;> simp [get_lo_chan, Prog.bind, get_ad9361_phy_eq, hphy]

theorem cfg_ad9361_streaming_ch_eq (env : Env) (ctx : Nat) (cfg : stream_cfg) (type : iodev)
    (chid : Int) (w : World) (phy pc lc : Nat)
    (hphy : env.find_device ctx "ad9361-phy" = some phy)
    (hpc : env.find_channel phy (get_ch_name "voltage" chid) (type == .TX) = some pc)
    (hlc : env.find_channel phy (get_ch_name "altvoltage" (if type = .TX then 1 else 0)) true
      = some lc) :
    cfg_ad9361_streaming_ch env ctx cfg type chid w =
      if narrowToInt (env.attr_write pc "rf_port_select" cfg.rfport) < 0 then
        .exited 0 { w with trace := w.trace ++
          ([.print "* Acquiring AD9361 phy channel %d\n", .find_device ctx "ad9361-phy",
            .find_channel phy (get_ch_name "voltage" chid) (type == .TX),
            .attr_write pc "rf_port_select" cfg.rfport, errchkMsg] ++ shutdownTrace w.g) }
      else if env.attr_write_longlong pc "rf_bandwidth" cfg.bw_hz < 0 then
        .exited 0 { w with trace := w.trace ++
          ([.print "* Acquiring AD9361 phy channel %d\n", .find_device ctx "ad9361-phy",
            .find_channel phy (get_ch_name "voltage" chid) (type == .TX),
            .attr_write pc "rf_port_select" cfg.rfport,
            .attr_write_longlong pc "rf_bandwidth" cfg.bw_hz, errchkMsg] ++ shutdownTrace w.g) }
      else if env.attr_write_longlong pc "sampling_frequency" cfg.fs_hz < 0 then
        .exited 0 { w with trace := w.trace ++
          ([.print "* Acquiring AD9361 phy channel %d\n", .find_device ctx "ad9361-phy",
            .find_channel phy (get_ch_name "voltage" chid) (type == .TX),
            .attr_write pc "rf_port_select" cfg.rfport,
            .attr_write_longlong pc "rf_bandwidth" cfg.bw_hz,
            .attr_write_longlong pc "sampling_frequency" cfg.fs_hz, errchkMsg]
              ++ shutdownTrace w.g) }
      else if env.attr_write_longlong lc "frequency" cfg.lo_hz < 0 then
        .exited 0 { w with trace := w.trace ++
          ([.print "* Acquiring AD9361 phy channel %d\n", .find_device ctx "ad9361-phy",
            .find_channel phy (get_ch_name "voltage" chid) (type == .TX),
            .attr_write pc "rf_port_select" cfg.rfport,
            .attr_write_longlong pc "rf_bandwidth" cfg.bw_hz,
            .attr_write_longlong pc "sampling_frequency" cfg.fs_hz,
            .print "* Acquiring AD9361 %s lo channel\n", .find_device ctx "ad9361-phy",
            .find_channel phy (get_ch_name "altvoltage" (if type = .TX then 1 else 0)) true,
            .attr_write_longlong lc "frequency" cfg.lo_hz, errchkMsg] ++ shutdownTrace w.g) }
      else
        .ret true { w with trace := w.trace ++
          [.print "* Acquiring AD9361 phy channel %d\n", .find_device ctx "ad9361-phy",
            .find_channel phy (get_ch_name "voltage" chid) (type == .TX),
            .attr_write pc "rf_port_select" cfg.rfport,
            .attr_write_longlong pc "rf_bandwidth" cfg.bw_hz,
            .attr_write_longlong pc "sampling_frequency" cfg.fs_hz,
            .print "* Acquiring AD9361 %s lo channel\n", .find_device ctx "ad9361-phy",
            .find_channel phy (get_ch_name "altvoltage" (if type = .TX then 1 else 0)) true,
            .attr_write_longlong lc "frequency" cfg.lo_hz] } := by
  have hlo := fun w1 => get_lo_chan_eq env ctx type w1 phy hphy
  simp only [hlc] at hlo
  generalize get_ch_name "altvoltage" (if type = iodev.TX then 1 else 0) = loName at hlo ⊢
  unfold cfg_ad9361_streaming_ch
  simp only [bind_apply, Prog.bind, emit_apply, get_phy_chan_eq env ctx type chid _ phy hphy, hpc,
    wr_ch_str_eq, wr_ch_lli_eq, errchkMsg, hlo]
  split_ifs <;> simp [Prog.bind, wr_ch_lli_eq, *]

theorem read16_range (m : Mem) (p : Nat) : -32768 ≤ read16 m p ∧ read16 m p ≤ 32767 := by
  unfold read16
  have h1 : m p % 256 < 256 := Nat.mod_lt _ (by decide)
  have h2 : m (p + 1) % 256 < 256 := Nat.mod_lt _ (by decide)
  simp only
  split <;> omega

theorem write16_other (m : Mem) (p : Nat) (v : Int) (a : Nat) (h1 : a ≠ p) (h2 : a ≠ p + 1) :
    write16 m p v a = m a := by
  simp [write16, h1, h2]

theorem read16_congr (m m' : Mem) (p : Nat) (h0 : m' p = m p) (h1 : m' (p + 1) = m (p + 1)) :
    read16 m' p = read16 m p := by
  simp [read16, h0, h1]

theorem read16_write16_same (m : Mem) (p : Nat) (v : Int) (hv : -32768 ≤ v ∧ v ≤ 32767) :
    read16 (write16 m p v) p = v := by
  unfold read16 write16
  simp only [if_true, Nat.add_right_eq_self, one_ne_zero, if_false]
  have hnn : 0 ≤ v % 65536 := Int.emod_nonneg _ (by decide)
  have hlt : v % 65536 < 65536 := Int.emod_lt_of_pos _ (by decide)
  obtain ⟨u, hu⟩ : ∃ u : Nat, v % 65536 = (u : Int) := ⟨(v % 65536).toNat, by omega⟩
  rw [hu] at hlt ⊢
  simp only [Int.toNat_ofNat]
  have h3 : u / 256 % 256 = u / 256 := Nat.mod_eq_of_lt (by omega)
  rw [Nat.mod_mod, h3]
  have h4 : u % 256 + 256 * (u / 256) = u := Nat.mod_add_div u 256
  rw [h4]
  split <;> omega

theorem read16_write16_other (m : Mem) (p q : Nat) (v : Int) (h : q + 2 ≤ p ∨ p + 2 ≤ q) :
    read16 (write16 m p v) q = read16 m q := by
  apply read16_congr <;> apply write16_other <;> omega

@[simp] theorem load_apply (p : Nat) (w : World) :
    load p w = .ret (read16 w.mem p) { w with trace := w.trace ++ [.load16 p] } := rfl

@[simp] theorem store_apply (p : Nat) (v : Int) (w : World) :
    store p v w
      = .ret () { w with mem := write16 w.mem p v, trace := w.trace ++ [.store16 p v] } := rfl

theorem drainLoop_eq (step p_end : Nat) :
    ∀ (frames fuel p : Nat) (w : World), frames < fuel →
      (∀ k, k < frames ↔ p + k * step < p_end) →
      drainLoop fuel p p_end step w
        = .ret () { w with trace := w.trace ++ drainEvents w.mem step frames p } := by
  intro frames
  induction frames with
  | zero =>
    intro fuel p w hf hk
    obtain ⟨f, rfl⟩ : ∃ f, fuel = f + 1 := ⟨fuel - 1, by omega⟩
    have h0 : ¬ p < p_end := by
      have := (hk 0).mpr
      simp only [Nat.zero_mul, Nat.add_zero] at this
      intro h
      exact absurd (this h) (by omega)
    simp [drainLoop, h0, drainEvents]
  | succ n ih =>
    intro fuel p w hf hk
    obtain ⟨f, rfl⟩ : ∃ f, fuel = f + 1 := ⟨fuel - 1, by omega⟩
    have h0 : p < p_end := by
      have := (hk 0).mp (by omega)
      simpa using this
    have hk' : ∀ k, k < n ↔ p + step + k * step < p_end := by
      intro k
      have := hk (k + 1)
      rw [Nat.add_mul, Nat.one_mul] at this
      constructor
      · intro h
        have := this.mp (by omega)
        omega
      · intro h
        have := this.mpr (by omega)
        omega
    simp only [drainLoop, h0, if_true, bind_apply, Prog.bind, load_apply, emit_apply]
    rw [ih f (p + step) _ (by omega) hk']
    simp [drainEvents]

theorem frames_aligned (p step frames : Nat) (hstep : 0 < step) :
    ∀ k, k < frames ↔ p + k * step < p + frames * step := by
  intro k
  constructor
  · intro h
    have : k * step < frames * step := Nat.mul_lt_mul_of_pos_right h hstep
    omega
  · intro h
    by_contra hc
    have : frames * step ≤ k * step := Nat.mul_le_mul_right _ (by omega)
    omega

theorem fillLoop_eq (tbl : List Row) (step p_end : Nat) :
    ∀ (frames fuel p iter : Nat) (w : World), frames < fuel →
      (∀ k, k < frames ↔ p + k * step < p_end) →
      iter + frames ≤ tbl.length →
      fillLoop tbl fuel p p_end step iter w
        = .ret () { w with
            mem := fillMem step ((tbl.drop iter).take frames) p w.mem,
            trace := w.trace ++ fillEvents step ((tbl.drop iter).take frames) p } := by
  intro frames
  induction frames with
  | zero =>
    intro fuel p iter w hf hk _
    obtain ⟨f, rfl⟩ : ∃ f, fuel = f + 1 := ⟨fuel - 1, by omega⟩
    have h0 : ¬ p < p_end := by
      have := (hk 0).mpr
      simp only [Nat.zero_mul, Nat.add_zero] at this
      intro h
      exact absurd (this h) (by omega)
    simp [fillLoop, h0, fillMem, fillEvents]
  | succ n ih =>
    intro fuel p iter w hf hk hlen
    obtain ⟨f, rfl⟩ : ∃ f, fuel = f + 1 := ⟨fuel - 1, by omega⟩
    have h0 : p < p_end := by
      have := (hk 0).mp (by omega)
      simpa using this
    have hk' : ∀ k, k < n ↔ p + step + k * step < p_end := by
      intro k
      have := hk (k + 1)
      rw [Nat.add_mul, Nat.one_mul] at this
      constructor
      · intro h
        have := this.mp (by omega)
        omega
      · intro h
        have := this.mpr (by omega)
        omega
    have hit : iter < tbl.length := by omega
    have hget : tbl.get? iter = some (tbl.get ⟨iter, hit⟩) := List.get?_eq_get hit
    have hdrop : tbl.drop iter = tbl.get ⟨iter, hit⟩ :: tbl.drop (iter + 1) :=
      (List.drop_eq_getElem_cons hit)
    simp only [fillLoop, h0, if_true, hget, bind_apply, Prog.bind, store_apply]
    rw [ih f (p + step) (iter + 1) _ (by omega) hk' (by omega), hdrop, List.take_succ_cons]
    simp only [fillMem, fillEvents, List.append_assoc, List.singleton_append, List.cons_append,
      List.nil_append]

theorem fillMem_below (step : Nat) :
    ∀ (rows : List Row) (p : Nat) (m : Mem) (a : Nat), a < p → fillMem step rows p m a = m a := by
  intro rows
  induction rows with
  | nil => intro p m a _; rfl
  | cons row rows ih =>
    intro p m a ha
    simp only [fillMem]
    rw [ih (p + step) _ a (by omega), write16_other _ _ _ _ (by omega) (by omega),
      write16_other _ _ _ _ (by omega) (by omega)]

theorem fillMem_get (step : Nat) (hstep : 4 ≤ step) :
    ∀ (rows : List Row) (p : Nat) (m : Mem) (k : Nat) (row : Row),
      rows.get? k = some row →
      (-32768 ≤ row.c0 ∧ row.c0 ≤ 32767) → (-32768 ≤ row.c1 ∧ row.c1 ≤ 32767) →
      read16 (fillMem step rows p m) (p + k * step) = row.c0 ∧
      read16 (fillMem step rows p m) (p + k * step + 2) = row.c1 := by
  intro rows
  induction rows with
  | nil => intro p m k row h; simp at h
  | cons r rows ih =>
    intro p m k row h h0 h1
    cases k with
    | zero =>
      simp only [List.get?_cons_zero, Option.some.injEq] at h
      subst h
      simp only [fillMem, Nat.zero_mul, Nat.add_zero]
      constructor
      · rw [read16_congr _ _ p (fillMem_below step rows (p + step) _ p (by omega))
          (fillMem_below step rows (p + step) _ (p + 1) (by omega)),
          read16_write16_other _ _ _ _ (by omega), read16_write16_same _ _ _ h0]
      · rw [read16_congr _ _ (p + 2) (fillMem_below step rows (p + step) _ (p + 2) (by omega))
          (fillMem_below step rows (p + step) _ (p + 2 + 1) (by omega)),
          read16_write16_same _ _ _ h1]
    | succ k =>
      simp only [List.get?_cons_succ] at h
      have := ih (p + step) (write16 (write16 m p r.c0) (p + 2) r.c1) k row h h0 h1
      have e : p + (k + 1) * step = p + step + k * step := by rw [Nat.add_mul]; omega
      simp only [fillMem, e]
      exact this

theorem drainEvents_isDrain (m : Mem) (step : Nat) :
    ∀ (frames p : Nat), ∀ e ∈ drainEvents m step frames p, e.isDrain = true := by
  intro frames
  induction frames with
  | zero => intro p e he; simp [drainEvents] at he
  | succ n ih =>
    intro p e he
    simp only [drainEvents, List.mem_append, List.mem_cons, List.mem_singleton,
      List.not_mem_nil, or_false] at he
    rcases he with (h | h | h) | h
    · subst h; rfl
    · subst h; rfl
    · subst h; rfl
    · exact ih _ e h

theorem drainEvents_fileText (m : Mem) (step : Nat) :
    ∀ (frames p : Nat), (drainEvents m step frames p).filterMap Event.fileText
      = (List.range frames).map
          (fun k => csvLine (read16 m (p + k * step)) (read16 m (p + k * step + 2))) := by
  intro frames
  induction frames with
  | zero => intro p; rfl
  | succ n ih =>
    intro p
    rw [List.range_succ_eq_map]
    simp only [drainEvents, List.filterMap_append, ih, List.map_cons, List.map_map]
    simp only [List.filterMap_cons, Event.fileText, List.filterMap_nil, List.nil_append,
      List.singleton_append, Nat.zero_mul, Nat.add_zero, List.cons.injEq, true_and]
    apply List.map_congr_left
    intro k _
    have e : p + (k + 1) * step = p + step + k * step := by rw [Nat.add_mul]; omega
    simp only [Function.comp, Nat.succ_eq_add_one, e]

theorem drainEvents_loadAddr (m : Mem) (step : Nat) :
    ∀ (frames p : Nat) (a : Nat), Event.load16 a ∈ drainEvents m step frames p →
      ∃ k, k < frames ∧ (a = p + k * step ∨ a = p + k * step + 2) := by
  intro frames
  induction frames with
  | zero => intro p a he; simp [drainEvents] at he
  | succ n ih =>
    intro p a he
    simp only [drainEvents, List.mem_append, List.mem_cons, List.mem_singleton,
      List.not_mem_nil, or_false] at he
    rcases he with (h | h | h) | h
    · cases h; exact ⟨0, by omega, Or.inl (by simp)⟩
    · cases h; exact ⟨0, by omega, Or.inr (by simp)⟩
    · cases h
    · obtain ⟨k, hk, hk'⟩ := ih _ a h
      have e : p + (k + 1) * step = p + step + k * step := by rw [Nat.add_mul]; omega
      exact ⟨k + 1, by omega, by rw [e]; exact hk'⟩

theorem fillEvents_isStore (step : Nat) :
    ∀ (rows : List Row) (p : Nat), ∀ e ∈ fillEvents step rows p, e.isStore = true := by
  intro rows
  induction rows with
  | nil => intro p e he; simp [fillEvents] at he
  | cons r rows ih =>
    intro p e he
    simp only [fillEvents, List.mem_append, List.mem_cons, List.mem_singleton,
      List.not_mem_nil, or_false] at he
    rcases he with (h | h) | h
    · subst h; rfl
    · subst h; rfl
    · exact ih _ e h

theorem toInt16_range (x : ℚ) (t : Int) (h : toInt16 x = some t) : -32768 ≤ t ∧ t ≤ 32767 := by
  unfold toInt16 at h
  simp only at h
  split at h
  · cases h; assumption
  · cases h

theorem toInt16_intCast (t : Int) (h : -32768 ≤ t ∧ t ≤ 32767) : toInt16 (t : ℚ) = some t := by
  simp [toInt16, h.1, h.2]

theorem scaleSample_intCast (t : Int) (h : -10 ≤ t ∧ t ≤ 10) :
    scaleSample (t : ℚ) = some (t * 3200) := by
  unfold scaleSample
  rw [toInt16_intCast t (by omega)]
  simp only
  have := toInt16_intCast (t * 3200) (by omega)
  simpa using this

theorem scaleSample_range (x : ℚ) (t : Int) (h : scaleSample x = some t) :
    -32768 ≤ t ∧ t ≤ 32767 := by
  unfold scaleSample at h
  split at h
  · cases h
  · exact toInt16_range _ _ h

theorem scaleRow_range (r : Record) (row : Row) (h : scaleRow r = some row) : row.inRange := by
  unfold scaleRow at h
  split at h
  · rename_i a b c d ha hb hc hd
    cases h
    exact ⟨scaleSample_range _ _ ha, scaleSample_range _ _ hb⟩
  · cases h

theorem preloadLoop_succ (n : Nat) (src : List Record) (vars : Option Record) :
    preloadLoop (n + 1) src vars =
      match (fscanfRecord src vars).2 with
      | none => none
      | some r =>
        match scaleRow r, preloadLoop n (fscanfRecord src vars).1 (some r) with
        | some row, some rows => some (row :: rows)
        | _, _ => none := rfl

theorem preloadLoop_some (n : Nat) :
    ∀ (src : List Record) (v : Record),
      (∀ r ∈ src, ∃ row, scaleRow r = some row) → (∃ row, scaleRow v = some row) →
      ∃ tbl, preloadLoop n src (some v) = some tbl ∧ tbl.length = n ∧
        ∀ k, k < n → tbl.get? k = scaleRow ((src.get? k).getD (src.getLast?.getD v)) := by
  induction n with
  | zero =>
    intro src v _ _
    exact ⟨[], rfl, rfl, fun k hk => absurd hk (by omega)⟩
  | succ n ih =>
    intro src v hsrc hv
    cases src with
    | nil =>
      obtain ⟨row, hrow⟩ := hv
      obtain ⟨tbl, h1, h2, h3⟩ := ih [] v (by simp) ⟨row, hrow⟩
      refine ⟨row :: tbl, ?_, by simp [h2], ?_⟩
      · simp [preloadLoop, fscanfRecord, hrow, h1]
      · intro k hk
        cases k with
        | zero => simp [hrow]
        | succ k =>
          have := h3 k (by omega)
          simpa using this
    | cons r rest =>
      obtain ⟨row, hrow⟩ := hsrc r (by simp)
      obtain ⟨tbl, h1, h2, h3⟩ := ih rest r (fun x hx => hsrc x (by simp [hx])) ⟨row, hrow⟩
      refine ⟨row :: tbl, ?_, by simp [h2], ?_⟩
      · simp [preloadLoop, fscanfRecord, hrow, h1]
      · intro k hk
        cases k with
        | zero => simp [hrow]
        | succ k =>
          have := h3 k (by omega)
          rw [List.getLast?_cons]
          simpa using this

theorem get?_getD_getLast (src : List Record) (v : Record) (k : Nat) (hne : src ≠ []) :
    some ((src.get? k).getD (src.getLast?.getD v)) = src.get? (min k (src.length - 1)) := by
  have hlen : 0 < src.length := List.length_pos.mpr hne
  by_cases hk : k < src.length
  · have : min k (src.length - 1) = k := by omega
    rw [this, List.get?_eq_get hk]
    rfl
  · have : min k (src.length - 1) = src.length - 1 := by omega
    rw [this, List.get?_eq_none.mpr (by omega), List.get?_eq_getElem?,
      ← List.getLast?_eq_getElem?]
    obtain ⟨x, hx⟩ : ∃ x, src.getLast? = some x := by
      cases h : src.getLast? with
      | none => exact absurd (List.getLast?_eq_none_iff.mp h) hne
      | some x => exact ⟨x, rfl⟩
    simp [hx]

theorem preload_some (src : List Record) (hne : src ≠ [])
    (hsrc : ∀ r ∈ src, ∃ row, scaleRow r = some row) :
    ∃ tbl, preload src = some tbl ∧ tbl.length = bufferSize ∧
      ∀ k r, k < bufferSize → src.get? (min k (src.length - 1)) = some r →
        ∃ row, scaleRow r = some row ∧ tbl.get? k = some row ∧ row.inRange := by
  cases src with
  | nil => exact absurd rfl hne
  | cons r rest =>
    obtain ⟨row, hrow⟩ := hsrc r (by simp)
    obtain ⟨tbl, h1, h2, h3⟩ :=
      preloadLoop_some 4199 rest r (fun x hx => hsrc x (by simp [hx])) ⟨row, hrow⟩
    refine ⟨row :: tbl, ?_, by simp [h2, bufferSize], ?_⟩
    · show preloadLoop (4199 + 1) (r :: rest) none = _
      rw [preloadLoop_succ]
      simp only [fscanfRecord, hrow, h1]
    · intro k x hk hx
      have hmain : (row :: tbl).get? k
          = scaleRow (((r :: rest).get? k).getD ((r :: rest).getLast?.getD r)) := by
        cases k with
        | zero => simp [hrow]
        | succ k =>
          have := h3 k (by simp [bufferSize] at hk; omega)
          rw [List.getLast?_cons]
          simpa using this
      have hidx := get?_getD_getLast (r :: rest) r k (by simp)
      rw [hx] at hidx
      cases hidx
      obtain ⟨row', hrow'⟩ := hsrc _ (List.get?_mem hx)
      exact ⟨row', hrow', by rw [hmain, hrow'], scaleRow_range _ _ hrow'⟩

theorem shutdownTrace_noDrainStore (g : Globals) :
    (shutdownTrace g).filter (fun e => e.isDrain || e.isStore) = [] := by
  simp only [shutdownTrace, List.filter_append]
  rw [filter_map_toList_nil _ _ g.rxbuf (fun _ => rfl), filter_map_toList_nil _ _ g.txbuf (fun _ => rfl),
    filter_map_toList_nil _ _ g.rx0_i (fun _ => rfl), filter_map_toList_nil _ _ g.rx0_q (fun _ => rfl),
    filter_map_toList_nil _ _ g.tx0_i (fun _ => rfl), filter_map_toList_nil _ _ g.tx0_q (fun _ => rfl),
    filter_map_toList_nil _ _ g.ctx (fun _ => rfl)]
  simp [Event.isDrain, Event.isStore]

theorem pushPhase_eq (env : Env) (n : Nat) (w : World) (tx : Nat) (htx : w.g.txbuf = some tx) :
    pushPhase env n w =
      if env.push_ret n < 0 then
        .exited 0 { g := w.g, mem := env.push_mem n w.mem,
                    trace := w.trace ++ ([.buffer_push tx w.mem, .print "Error pushing buf %d\n"]
                      ++ shutdownTrace w.g) }
      else
        .ret () { g := w.g, mem := env.push_mem n w.mem,
                  trace := w.trace ++ [.buffer_push tx w.mem] } := by
  unfold pushPhase
  simp only [htx]
  split <;> simp [Prog.bind, shutdown_eq]

theorem refillPhase_eq (env : Env) (n : Nat) (g : Globals) (m : Mem) (t : List Event) (rx : Nat)
    (hrx : g.rxbuf = some rx) :
    refillPhase env n ⟨g, m, t⟩ =
      if env.refill_ret n < 0 then
        .exited 0 { g := g, mem := env.refill_mem n m,
                    trace := t ++ ([.buffer_refill rx, .print "Error refilling buf %d\n"]
                      ++ shutdownTrace g) }
      else
        .ret () { g := g, mem := env.refill_mem n m, trace := t ++ [.buffer_refill rx] } := by
  unfold refillPhase
  simp only [hrx]
  split <;> simp [Prog.bind, shutdown_eq]

theorem drainLoop_ret (p_end step : Nat) :
    ∀ (fuel p : Nat) (w w' : World), drainLoop fuel p p_end step w = .ret () w' →
      ∃ sfx, w' = { w with trace := w.trace ++ sfx } ∧ ∀ e ∈ sfx, e.isDrain = true := by
  intro fuel
  induction fuel with
  | zero => intro p w w' h; simp [drainLoop] at h
  | succ f ih =>
    intro p w w' h
    by_cases hp : p < p_end
    · simp only [drainLoop, hp, if_true, bind_apply, Prog.bind, load_apply, emit_apply] at h
      obtain ⟨sfx, h1, h2⟩ := ih _ _ _ h
      refine ⟨[.load16 p, .load16 (p + 2),
        .file_write (csvLine (read16 w.mem p) (read16 w.mem (p + 2)))] ++ sfx, ?_, ?_⟩
      · rw [h1]; simp
      · intro e he
        simp only [List.mem_append, List.mem_cons, List.mem_singleton, List.not_mem_nil,
          or_false] at he
        rcases he with (h | h | h) | h
        · subst h; rfl
        · subst h; rfl
        · subst h; rfl
        · exact h2 e h
    · simp only [drainLoop, hp, if_false, pure_apply, Outcome.ret.injEq, true_and] at h
      exact ⟨[], by simp [← h], by simp⟩

theorem fillLoop_ret (tbl : List Row) (p_end step : Nat) :
    ∀ (fuel p iter : Nat) (w w' : World), fillLoop tbl fuel p p_end step iter w = .ret () w' →
      ∃ sfx, w'.g = w.g ∧ w'.trace = w.trace ++ sfx ∧ ∀ e ∈ sfx, e.isStore = true := by
  intro fuel
  induction fuel with
  | zero => intro p iter w w' h; simp [fillLoop] at h
  | succ f ih =>
    intro p iter w w' h
    by_cases hp : p < p_end
    · cases hrow : tbl.get? iter with
      | none =>
        simp only [fillLoop, hp, if_true, hrow] at h
        cases h
      | some row =>
        simp only [fillLoop, hp, if_true, hrow, bind_apply, Prog.bind, store_apply] at h
        obtain ⟨sfx, h0, h1, h2⟩ := ih _ _ _ _ h
        refine ⟨[.store16 p row.c0, .store16 (p + 2) row.c1] ++ sfx, ?_, ?_, ?_⟩
        · rw [h0]
        · rw [h1]; simp
        · intro e he
          simp only [List.mem_append, List.mem_cons, List.mem_singleton, List.not_mem_nil,
            or_false] at he
          rcases he with (h | h) | h
          · subst h; rfl
          · subst h; rfl
          · exact h2 e h
    · simp only [fillLoop, hp, if_false, pure_apply, Outcome.ret.injEq, true_and] at h
      exact ⟨[], by simp [← h], by simp [← h], by simp⟩

theorem iteration_ret (env : Env) (tbl : List Row) (inner n : Nat) (w w' : World)
    (h : iteration env tbl inner n w = .ret () w') :
    ∃ tx rx drain fill wd,
      w.g.txbuf = some tx ∧ w.g.rxbuf = some rx ∧ w'.g = w.g ∧
      w'.trace = w.trace ++ [.buffer_push tx w.mem, .buffer_refill rx] ++ drain ++ fill ∧
      (∀ e ∈ drain, e.isDrain = true) ∧ (∀ e ∈ fill, e.isStore = true) ∧
      wd.mem = env.refill_mem n (env.push_mem n w.mem) ∧
      fillPhase env tbl inner n wd = .ret () w' := by
  unfold iteration at h
  simp only [bind_apply, Prog.bind] at h
  cases htx : w.g.txbuf with
  | none => simp [pushPhase, htx] at h
  | some tx =>
    rw [pushPhase_eq env n w tx htx] at h
    by_cases hp : env.push_ret n < 0
    · simp [hp] at h
    · simp only [hp, if_false] at h
      cases hrx : w.g.rxbuf with
      | none => simp [refillPhase, hrx] at h
      | some rx =>
        rw [refillPhase_eq env n _ _ _ rx hrx] at h
        by_cases hr : env.refill_ret n < 0
        · simp [hr] at h
        · simp only [hr, if_false] at h
          cases hd : drainPhase env inner n
              { g := w.g, mem := env.refill_mem n (env.push_mem n w.mem),
                trace := w.trace ++ [.buffer_push tx w.mem] ++ [.buffer_refill rx] } with
          | ret u wd =>
            rw [hd] at h
            simp only at h
            have hd' := hd
            unfold drainPhase at hd'
            simp only [hrx] at hd'
            cases hq : w.g.rx0_q with
            | none => simp [hq] at hd'
            | some c =>
              simp only [hq] at hd'
              obtain ⟨drain, e1, e2⟩ := drainLoop_ret _ _ _ _ _ _ hd'
              have hf' := h
              unfold fillPhase at hf'
              have hg : wd.g = w.g := by rw [e1]
              simp only [hg, htx] at hf'
              cases hq2 : w.g.tx0_q with
              | none => simp [hq2] at hf'
              | some c2 =>
                simp only [hq2] at hf'
                obtain ⟨fill, f0, f1, f2⟩ := fillLoop_ret _ _ _ _ _ _ _ _ hf'
                refine ⟨tx, rx, drain, fill, wd, rfl, rfl, by rw [f0, hg], ?_, e2, f2, ?_, h⟩
                · rw [f1, e1]; simp
                · rw [e1]
          | exited c wd => rw [hd] at h; simp at h
          | aborted wd => rw [hd] at h; simp at h
          | undefined wd => rw [hd] at h; simp at h
          | outOfFuel wd => rw [hd] at h; simp at h

theorem iteration_eq (env : Env) (tbl : List Row) (inner n : Nat) (w : World)
    (tx rx cq ctq rframes tframes : Nat)
    (htx : w.g.txbuf = some tx) (hrx : w.g.rxbuf = some rx)
    (hq : w.g.rx0_q = some cq) (htq : w.g.tx0_q = some ctq)
    (hpush : 0 ≤ env.push_ret n) (hrefill : 0 ≤ env.refill_ret n)
    (hrgeo : ∀ k, k < rframes ↔
      env.buffer_first n rx cq + k * env.buffer_step n rx < env.buffer_end n rx)
    (htgeo : ∀ k, k < tframes ↔
      env.buffer_first n tx ctq + k * env.buffer_step n tx < env.buffer_end n tx)
    (hrows : tframes ≤ tbl.length) (hr : rframes < inner) (ht : tframes < inner) :
    iteration env tbl inner n w =
      .ret () { g := w.g,
                mem := fillMem (env.buffer_step n tx) (tbl.take tframes)
                  (env.buffer_first n tx ctq) (env.refill_mem n (env.push_mem n w.mem)),
                trace := w.trace ++ [.buffer_push tx w.mem, .buffer_refill rx]
                  ++ drainEvents (env.refill_mem n (env.push_mem n w.mem)) (env.buffer_step n rx)
                      rframes (env.buffer_first n rx cq)
                  ++ fillEvents (env.buffer_step n tx) (tbl.take tframes)
                      (env.buffer_first n tx ctq) } := by
  unfold iteration
  simp only [bind_apply, Prog.bind, pushPhase_eq env n w tx htx, not_lt.mpr hpush, if_false]
  rw [refillPhase_eq env n _ _ _ rx hrx]
  simp only [not_lt.mpr hrefill, if_false]
  unfold drainPhase
  simp only [hrx, hq]
  rw [drainLoop_eq _ _ rframes inner _ _ hr hrgeo]
  unfold fillPhase
  simp only [htx, htq]
  rw [fillLoop_eq tbl _ _ tframes inner _ 0 _ ht htgeo (by omega)]
  simp

theorem stateAt_succ (env : Env) (tbl : List Row) (inner : Nat) (w0 w' : World) (n : Nat)
    (h : stateAt env tbl inner w0 (n + 1) = some w') :
    ∃ w, stateAt env tbl inner w0 n = some w ∧ env.stop n = false ∧
      iteration env tbl inner n w = .ret () w' := by
  simp only [stateAt] at h
  cases hs : stateAt env tbl inner w0 n with
  | none => simp [hs] at h
  | some w =>
    simp only [hs] at h
    by_cases hstop : env.stop n = true
    · simp [hstop] at h
    · simp only [hstop] at h
      cases hi : iteration env tbl inner n w with
      | ret u w1 =>
        rw [hi] at h
        simp only [Bool.false_eq_true, if_false, Option.some.injEq] at h
        exact ⟨w, rfl, by simpa using hstop, by rw [hi, h]⟩
      | exited c wd => rw [hi] at h; simp at h
      | aborted wd => rw [hi] at h; simp at h
      | undefined wd => rw [hi] at h; simp at h
      | outOfFuel wd => rw [hi] at h; simp at h

theorem streamLoop_succ (env : Env) (tbl : List Row) (inner fuel n : Nat) (w : World)
    (hstop : env.stop n = false) :
    streamLoop env tbl inner (fuel + 1) n w
      = (iteration env tbl inner n >>= fun _ => streamLoop env tbl inner fuel (n + 1)) w := by
  simp [streamLoop, hstop]

theorem stateAt_streamLoop (env : Env) (tbl : List Row) (inner : Nat) (w0 : World) :
    ∀ (n : Nat) (w : World), stateAt env tbl inner w0 n = some w →
      ∀ fuel, streamLoop env tbl inner (n + fuel) 0 w0 = streamLoop env tbl inner fuel n w := by
  intro n
  induction n with
  | zero =>
    intro w h fuel
    simp only [stateAt, Option.some.injEq] at h
    rw [h, Nat.zero_add]
  | succ n ih =>
    intro w' h fuel
    obtain ⟨w, hw, hstop, hit⟩ := stateAt_succ env tbl inner w0 w' n h
    have := ih w hw (fuel + 1)
    rw [show n + 1 + fuel = n + (fuel + 1) by omega, this, streamLoop_succ _ _ _ _ _ _ hstop]
    simp [Prog.bind, hit]

theorem filter_isExit_of_drain (l : List Event) (h : ∀ e ∈ l, e.isDrain = true) :
    l.filter Event.isExit = [] := by
  rw [List.filter_eq_nil_iff]
  intro e he
  have := h e he
  cases e <;> simp_all [Event.isDrain, Event.isExit]

theorem filter_isExit_of_store (l : List Event) (h : ∀ e ∈ l, e.isStore = true) :
    l.filter Event.isExit = [] := by
  rw [List.filter_eq_nil_iff]
  intro e he
  have := h e he
  cases e <;> simp_all [Event.isStore, Event.isExit]

theorem stateAt_inv (env : Env) (tbl : List Row) (inner : Nat) (w0 : World) :
    ∀ (n : Nat) (w : World), stateAt env tbl inner w0 n = some w →
      w.g = w0.g ∧ w.trace.filter Event.isExit = w0.trace.filter Event.isExit := by
  intro n
  induction n with
  | zero =>
    intro w h
    simp only [stateAt, Option.some.injEq] at h
    rw [h]; exact ⟨rfl, rfl⟩
  | succ n ih =>
    intro w' h
    obtain ⟨w, hw, _, hit⟩ := stateAt_succ env tbl inner w0 w' n h
    obtain ⟨tx, rx, drain, fill, wd, _, _, hg, ht, hd, hf, _, _⟩ :=
      iteration_ret env tbl inner n w w' hit
    obtain ⟨ig, it⟩ := ih w hw
    refine ⟨by rw [hg, ig], ?_⟩
    rw [ht]
    simp only [List.filter_append, filter_isExit_of_drain drain hd, filter_isExit_of_store fill hf,
      it, List.append_nil]
    simp [Event.isExit]

theorem extends_bind {α β : Type} (m : Prog α) (f : α → Prog β) (hm : Extends m)
    (hf : ∀ a, Extends (f a)) : Extends (m >>= f) := by
  intro w
  obtain ⟨s1, h1⟩ := hm w
  simp only [bind_apply, Prog.bind]
  cases h : m w with
  | ret a w1 =>
    rw [h] at h1
    obtain ⟨s2, h2⟩ := hf a w1
    refine ⟨s1 ++ s2, ?_⟩
    simp only [Outcome.world] at h1
    simp only [h2, h1, List.append_assoc]
  | exited c w1 => rw [h] at h1; exact ⟨s1, h1⟩
  | aborted w1 => rw [h] at h1; exact ⟨s1, h1⟩
  | undefined w1 => rw [h] at h1; exact ⟨s1, h1⟩
  | outOfFuel w1 => rw [h] at h1; exact ⟨s1, h1⟩

theorem extends_pure {α : Type} (a : α) : Extends (pure a : Prog α) :=
  fun _ => ⟨[], by simp [Outcome.world]⟩

theorem extends_emit (e : Event) : Extends (emit e) :=
  fun _ => ⟨[e], by simp [Outcome.world]⟩

theorem extends_load (p : Nat) : Extends (load p) :=
  fun _ => ⟨[.load16 p], by simp [Outcome.world]⟩

theorem extends_store (p : Nat) (v : Int) : Extends (store p v) :=
  fun _ => ⟨[.store16 p v], by simp [Outcome.world]⟩

theorem extends_shutdown : Extends shutdown :=
  fun w => ⟨shutdownTrace w.g, by simp [shutdown_eq, Outcome.world]⟩

theorem extends_drainLoop (p_end step : Nat) :
    ∀ (fuel p : Nat), Extends (drainLoop fuel p p_end step) := by
  intro fuel
  induction fuel with
  | zero => intro p w; exact ⟨[], by simp [drainLoop, Outcome.world]⟩
  | succ f ih =>
    intro p
    unfold drainLoop
    split
    · exact extends_bind _ _ (extends_load _) fun _ =>
        extends_bind _ _ (extends_load _) fun _ =>
          extends_bind _ _ (extends_emit _) fun _ => ih _
    · exact extends_pure _

theorem extends_fillLoop (tbl : List Row) (p_end step : Nat) :
    ∀ (fuel p iter : Nat), Extends (fillLoop tbl fuel p p_end step iter) := by
  intro fuel
  induction fuel with
  | zero => intro p iter w; exact ⟨[], by simp [fillLoop, Outcome.world]⟩
  | succ f ih =>
    intro p iter
    unfold fillLoop
    split
    · split
      · intro w; exact ⟨[], by simp [Outcome.world]⟩
      · exact extends_bind _ _ (extends_store _ _) fun _ =>
          extends_bind _ _ (extends_store _ _) fun _ => ih _ _
    · exact extends_pure _

theorem extends_refillPhase (env : Env) (n : Nat) : Extends (refillPhase env n) := by
  intro w
  cases hrx : w.g.rxbuf with
  | none => exact ⟨[], by simp [refillPhase, hrx, Outcome.world]⟩
  | some rx =>
    have := refillPhase_eq env n w.g w.mem w.trace rx hrx
    rw [show refillPhase env n w = refillPhase env n ⟨w.g, w.mem, w.trace⟩ from rfl, this]
    split
    · exact ⟨_, rfl⟩
    · exact ⟨_, rfl⟩

theorem extends_drainPhase (env : Env) (inner n : Nat) : Extends (drainPhase env inner n) := by
  intro w
  unfold drainPhase
  split
  · exact extends_drainLoop _ _ _ _ w
  · exact ⟨[], by simp [Outcome.world]⟩

theorem extends_fillPhase (env : Env) (tbl : List Row) (inner n : Nat) :
    Extends (fillPhase env tbl inner n) := by
  intro w
  unfold fillPhase
  split
  · exact extends_fillLoop _ _ _ _ _ _ w
  · exact ⟨[], by simp [Outcome.world]⟩

theorem extends_streamLoop (env : Env) (tbl : List Row) (inner : Nat)
    (hit : ∀ n, Extends (iteration env tbl inner n)) :
    ∀ (fuel n : Nat), Extends (streamLoop env tbl inner fuel n) := by
  intro fuel
  induction fuel with
  | zero => intro n w; exact ⟨[], by simp [streamLoop, Outcome.world]⟩
  | succ f ih =>
    intro n
    unfold streamLoop
    split
    · exact extends_pure _
    · exact extends_bind _ _ (hit n) fun _ => ih _

/-- After a first piece whose trace starts with `e`, the whole still starts with `e`. -/
theorem bind_starts {α β : Type} (m : Prog α) (f : α → Prog β) (w : World) (e : Event)
    (hm : ∃ rest, (m w).world.trace = w.trace ++ e :: rest) (hf : ∀ a, Extends (f a)) :
    ∃ rest, ((m >>= f) w).world.trace = w.trace ++ e :: rest := by
  obtain ⟨s1, h1⟩ := hm
  simp only [bind_apply, Prog.bind]
  cases h : m w with
  | ret a w1 =>
    rw [h] at h1
    obtain ⟨s2, h2⟩ := hf a w1
    refine ⟨s1 ++ s2, ?_⟩
    simp only [Outcome.world] at h1
    simp only [h2, h1, List.append_assoc, List.cons_append]
  | exited c w1 => rw [h] at h1; exact ⟨s1, h1⟩
  | aborted w1 => rw [h] at h1; exact ⟨s1, h1⟩
  | undefined w1 => rw [h] at h1; exact ⟨s1, h1⟩
  | outOfFuel w1 => rw [h] at h1; exact ⟨s1, h1⟩

theorem pushPhase_starts (env : Env) (n : Nat) (w : World) (tx : Nat)
    (htx : w.g.txbuf = some tx) :
    ∃ rest, (pushPhase env n w).world.trace = w.trace ++ .buffer_push tx w.mem :: rest := by
  rw [pushPhase_eq env n w tx htx]
  split
  · exact ⟨_, rfl⟩
  · exact ⟨[], rfl⟩

theorem extends_pushPhase (env : Env) (n : Nat) : Extends (pushPhase env n) := by
  intro w
  cases htx : w.g.txbuf with
  | none => exact ⟨[], by simp [pushPhase, htx, Outcome.world]⟩
  | some tx =>
    obtain ⟨rest, h⟩ := pushPhase_starts env n w tx htx
    exact ⟨_, h⟩

theorem extends_iteration (env : Env) (tbl : List Row) (inner n : Nat) :
    Extends (iteration env tbl inner n) := by
  unfold iteration
  exact extends_bind _ _ (extends_pushPhase _ _) fun _ =>
    extends_bind _ _ (extends_refillPhase _ _) fun _ =>
      extends_bind _ _ (extends_drainPhase _ _ _) fun _ => extends_fillPhase _ _ _ _

theorem streamLoop_starts (env : Env) (tbl : List Row) (inner fuel n : Nat) (w : World)
    (tx : Nat) (htx : w.g.txbuf = some tx) (hstop : env.stop n = false) :
    ∃ rest, (streamLoop env tbl inner (fuel + 1) n w).world.trace
      = w.trace ++ .buffer_push tx w.mem :: rest := by
  rw [streamLoop_succ _ _ _ _ _ _ hstop]
  apply bind_starts
  · unfold iteration
    apply bind_starts _ _ _ _ (pushPhase_starts env n w tx htx)
    intro _
    exact extends_bind _ _ (extends_refillPhase _ _) fun _ =>
      extends_bind _ _ (extends_drainPhase _ _ _) fun _ => extends_fillPhase _ _ _ _
  · intro _
    exact extends_streamLoop _ _ _ (extends_iteration _ _ _) _ _

/-! ## The phases of an iteration, under a regular buffer geometry -/

theorem stateAt_step (env : Env) (tbl : List Row) (inner : Nat) (w0 w w' : World) (n : Nat)
    (hw : stateAt env tbl inner w0 n = some w) (hstop : env.stop n = false)
    (hit : iteration env tbl inner n w = .ret () w') :
    stateAt env tbl inner w0 (n + 1) = some w' := by
  simp [stateAt, hw, hstop, hit]

theorem stateAt_some (env : Env) (tbl : List Row) (inner : Nat) (w0 : World)
    (tx rx cq ctq : Nat) (rframes tframes : Nat → Nat)
    (htx : w0.g.txbuf = some tx) (hrx : w0.g.rxbuf = some rx)
    (hq : w0.g.rx0_q = some cq) (htq : w0.g.tx0_q = some ctq) (N : Nat)
    (h : ∀ j, j < N →
      env.stop j = false ∧ 0 ≤ env.push_ret j ∧ 0 ≤ env.refill_ret j ∧
      (∀ k, k < rframes j ↔
        env.buffer_first j rx cq + k * env.buffer_step j rx < env.buffer_end j rx) ∧
      (∀ k, k < tframes j ↔
        env.buffer_first j tx ctq + k * env.buffer_step j tx < env.buffer_end j tx) ∧
      tframes j ≤ tbl.length ∧ rframes j < inner ∧ tframes j < inner) :
    ∀ n, n ≤ N → ∃ w, stateAt env tbl inner w0 n = some w := by
  intro n
  induction n with
  | zero => intro _; exact ⟨w0, rfl⟩
  | succ n ih =>
    intro hn
    obtain ⟨w, hw⟩ := ih (by omega)
    obtain ⟨hg, _⟩ := stateAt_inv env tbl inner w0 n w hw
    obtain ⟨h1, h2, h3, h4, h5, h6, h7, h8⟩ := h n (by omega)
    have hit := iteration_eq env tbl inner n w tx rx cq ctq (rframes n) (tframes n)
      (by rw [hg, htx]) (by rw [hg, hrx]) (by rw [hg, hq]) (by rw [hg, htq]) h2 h3 h4 h5 h6 h7 h8
    exact ⟨_, stateAt_step env tbl inner w0 w _ n hw h1 hit⟩

theorem shutdownTrace_noRefill (g : Globals) :
    (shutdownTrace g).filter Event.isRefill = [] := by
  simp only [shutdownTrace, List.filter_append]
  rw [filter_map_toList_nil _ _ g.rxbuf (fun _ => rfl), filter_map_toList_nil _ _ g.txbuf (fun _ => rfl),
    filter_map_toList_nil _ _ g.rx0_i (fun _ => rfl), filter_map_toList_nil _ _ g.rx0_q (fun _ => rfl),
    filter_map_toList_nil _ _ g.tx0_i (fun _ => rfl), filter_map_toList_nil _ _ g.tx0_q (fun _ => rfl),
    filter_map_toList_nil _ _ g.ctx (fun _ => rfl)]
  rfl

theorem scaleRow_intCast (a b c d : Int) (ha : -10 ≤ a ∧ a ≤ 10) (hb : -10 ≤ b ∧ b ≤ 10)
    (hc : -10 ≤ c ∧ c ≤ 10) (hd : -10 ≤ d ∧ d ≤ 10) :
    scaleRow ⟨a, b, c, d⟩ = some ⟨a * 3200, b * 3200, c * 3200, d * 3200⟩ := by
  simp only [scaleRow, scaleSample_intCast a ha, scaleSample_intCast b hb,
    scaleSample_intCast c hc, scaleSample_intCast d hd]

theorem scaleRow_1234 : scaleRow ⟨1, 2, 3, 4⟩ = some ⟨3200, 6400, 9600, 12800⟩ := by
  have := scaleRow_intCast 1 2 3 4 (by decide) (by decide) (by decide) (by decide)
  simpa using this

theorem scaleRow_3456 : scaleRow ⟨3, 4, 5, 6⟩ = some ⟨9600, 12800, 16000, 19200⟩ := by
  have := scaleRow_intCast 3 4 5 6 (by decide) (by decide) (by decide) (by decide)
  simpa using this

theorem shortSrc_convertible : ∀ r ∈ shortSrc, ∃ row, scaleRow r = some row := by
  intro r hr
  simp only [shortSrc, List.mem_cons, List.mem_singleton, List.not_mem_nil, or_false] at hr
  rcases hr with rfl | rfl
  · exact ⟨_, scaleRow_1234⟩
  · exact ⟨_, scaleRow_3456⟩

theorem bind_ret_inv {α β : Type} (m : Prog α) (f : α → Prog β) (w w' : World) (b : β)
    (h : (m >>= f) w = .ret b w') : ∃ a w1, m w = .ret a w1 ∧ f a w1 = .ret b w' := by
  simp only [bind_apply, Prog.bind] at h
  cases hm : m w with
  | ret a w1 => rw [hm] at h; exact ⟨a, w1, rfl, h⟩
  | exited c w1 => rw [hm] at h; cases h
  | aborted w1 => rw [hm] at h; cases h
  | undefined w1 => rw [hm] at h; cases h
  | outOfFuel w1 => rw [hm] at h; cases h

theorem iteration_ret_chain (env : Env) (tbl : List Row) (inner n : Nat) (w w' : World)
    (h : iteration env tbl inner n w = .ret () w') :
    ∃ w1 w2 wd,
      pushPhase env n w = .ret () w1 ∧ refillPhase env n w1 = .ret () w2 ∧
      drainPhase env inner n w2 = .ret () wd ∧ fillPhase env tbl inner n wd = .ret () w' := by
  unfold iteration at h
  obtain ⟨_, w1, h1, h⟩ := bind_ret_inv _ _ _ _ _ h
  obtain ⟨_, w2, h2, h⟩ := bind_ret_inv _ _ _ _ _ h
  obtain ⟨_, wd, h3, h⟩ := bind_ret_inv _ _ _ _ _ h
  exact ⟨w1, w2, wd, h1, h2, h3, h⟩

/-- The function `shutdown` leaves the static handles as they are: it does not clear them. -/
theorem shutdown_keeps_handles (w : World) : (shutdown w).world.g = w.g := by
  rw [shutdown_eq]; rfl

/-- The regular end of `main`: when the loop gets to iteration `n` and finds `stop`
set, the files are closed and `shutdown` ends the process. -/
theorem mainStream_stopped (env : Env) (src : List Record) (tbl : List Row) (inner fuel n : Nat)
    (w0 w : World) (hsrc : preload src = some tbl)
    (hreach : stateAt env tbl inner
      ⟨w0.g, w0.mem, w0.trace ++ [.print "* Starting IO streaming (press CTRL+C to cancel)\n"]⟩ n
        = some w)
    (hstop : env.stop n = true) :
    mainStream env src inner (n + (fuel + 1)) w0
      = .exited 0 ⟨w.g, w.mem, w.trace ++ ([.fclose true, .fclose false] ++ shutdownTrace w.g)⟩ := by
  unfold mainStream
  simp only [hsrc, bind_apply, Prog.bind, emit_apply]
  rw [stateAt_streamLoop env tbl inner _ n w hreach (fuel + 1)]
  simp [streamLoop, hstop, Prog.bind, shutdown_eq]

theorem narrowToInt_of_int (v : Int) (h : -2147483648 ≤ v ∧ v ≤ 2147483647) :
    narrowToInt v = v := by
  unfold narrowToInt
  omega

theorem narrowToInt_range (v : Int) :
    -2147483648 ≤ narrowToInt v ∧ narrowToInt v ≤ 2147483647 := by
  unfold narrowToInt
  omega

theorem drainPhase_geo (env : Env) (inner n : Nat) (w : World) (rx cq frames : Nat)
    (hrx : w.g.rxbuf = some rx) (hq : w.g.rx0_q = some cq)
    (hgeo : ∀ k, k < frames ↔
      env.buffer_first n rx cq + k * env.buffer_step n rx < env.buffer_end n rx)
    (hfuel : frames < inner) :
    drainPhase env inner n w = .ret () ⟨w.g, w.mem, w.trace ++
      drainEvents w.mem (env.buffer_step n rx) frames (env.buffer_first n rx cq)⟩ := by
  unfold drainPhase
  simp only [hrx, hq]
  exact drainLoop_eq _ _ frames inner _ w hfuel hgeo

theorem fillPhase_geo (env : Env) (tbl : List Row) (inner n : Nat) (w : World)
    (tx ctq frames : Nat)
    (htx : w.g.txbuf = some tx) (htq : w.g.tx0_q = some ctq) (hstep : 4 ≤ env.buffer_step n tx)
    (hgeo : ∀ k, k < frames ↔
      env.buffer_first n tx ctq + k * env.buffer_step n tx < env.buffer_end n tx)
    (hrows : frames ≤ tbl.length) (hfuel : frames < inner) :
    ∃ w', fillPhase env tbl inner n w = .ret () w' ∧ w'.g = w.g ∧
      w'.trace = w.trace ++ fillEvents (env.buffer_step n tx) (tbl.take frames)
        (env.buffer_first n tx ctq) ∧
      ∀ k row, k < frames → tbl.get? k = some row → row.inRange →
        read16 w'.mem (env.buffer_first n tx ctq + k * env.buffer_step n tx) = row.c0 ∧
        read16 w'.mem (env.buffer_first n tx ctq + k * env.buffer_step n tx + 2) = row.c1 := by
  refine ⟨⟨w.g, fillMem (env.buffer_step n tx) (tbl.take frames) (env.buffer_first n tx ctq) w.mem,
    w.trace ++ fillEvents (env.buffer_step n tx) (tbl.take frames) (env.buffer_first n tx ctq)⟩,
    ?_, rfl, rfl, ?_⟩
  · unfold fillPhase
    simp only [htx, htq]
    rw [fillLoop_eq tbl _ _ frames inner _ 0 w hfuel hgeo (by omega)]
    rfl
  · intro k row hk hget hrange
    have hget' : (tbl.take frames).get? k = some row := by
      rw [List.get?_eq_getElem?, List.getElem?_take_of_lt hk, ← List.get?_eq_getElem?, hget]
    exact fillMem_get _ hstep _ _ _ k row hget' hrange.1 hrange.2

theorem drainEvents_mem_load (m : Mem) (step : Nat) :
    ∀ (frames p k : Nat), k < frames →
      Event.load16 (p + k * step) ∈ drainEvents m step frames p ∧
      Event.load16 (p + k * step + 2) ∈ drainEvents m step frames p := by
  intro frames
  induction frames with
  | zero => intro p k hk; omega
  | succ n ih =>
    intro p k hk
    cases k with
    | zero => simp [drainEvents]
    | succ k =>
      have e : p + (k + 1) * step = p + step + k * step := by rw [Nat.add_mul]; omega
      obtain ⟨h1, h2⟩ := ih (p + step) k (by omega)
      rw [e]
      simp only [drainEvents, List.mem_append]
      exact ⟨Or.inr h1, Or.inr h2⟩

theorem fillEvents_mem_store (step : Nat) :
    ∀ (rows : List Row) (p k : Nat) (row : Row), rows.get? k = some row →
      Event.store16 (p + k * step) row.c0 ∈ fillEvents step rows p ∧
      Event.store16 (p + k * step + 2) row.c1 ∈ fillEvents step rows p := by
  intro rows
  induction rows with
  | nil => intro p k row h; simp at h
  | cons r rows ih =>
    intro p k row h
    cases k with
    | zero =>
      simp only [List.get?_cons_zero, Option.some.injEq] at h
      subst h
      simp [fillEvents]
    | succ k =>
      simp only [List.get?_cons_succ] at h
      have e : p + (k + 1) * step = p + step + k * step := by rw [Nat.add_mul]; omega
      obtain ⟨h1, h2⟩ := ih (p + step) k row h
      rw [e]
      simp only [fillEvents, List.mem_append]
      exact ⟨Or.inr h1, Or.inr h2⟩

theorem fillEvents_length (step : Nat) :
    ∀ (rows : List Row) (p : Nat), (fillEvents step rows p).length = 2 * rows.length := by
  intro rows
  induction rows with
  | nil => intro p; rfl
  | cons r rows ih =>
    intro p
    simp only [fillEvents, List.length_append, List.length_cons, List.length_nil, ih]
    omega

theorem fillPhase_ret_handles (env : Env) (tbl : List Row) (inner n : Nat) (wd w : World)
    (h : fillPhase env tbl inner n wd = .ret () w) :
    w.g = wd.g ∧ ∃ tx ctq, wd.g.txbuf = some tx ∧ wd.g.tx0_q = some ctq := by
  unfold fillPhase at h
  cases htx : wd.g.txbuf with
  | none => simp [htx] at h
  | some tx =>
    cases htq : wd.g.tx0_q with
    | none => simp [htx, htq] at h
    | some ctq =>
      simp only [htx, htq] at h
      obtain ⟨_, hg, _, _⟩ := fillLoop_ret _ _ _ _ _ _ _ _ h
      exact ⟨hg, tx, ctq, rfl, rfl⟩

/-- The drain loop started at the start of a frame (the pointer libiio returns
for the I channel) is lossless: over `frames` frames of `step ≥ 4` bytes it writes
one line per frame, in order, with the two 16-bit values at the start of the frame,
and every load lies below the end marker. -/
theorem drainLoop_from_frame_start (fuel start step frames : Nat) (w : World)
    (h4 : 4 ≤ step) (hfuel : frames < fuel) :
    ∃ sfx,
      drainLoop fuel start (start + frames * step) step w = .ret () ⟨w.g, w.mem, w.trace ++ sfx⟩ ∧
      sfx.filterMap Event.fileText =
        (List.range frames).map (fun k =>
          toString (read16 w.mem (start + k * step)) ++ ","
            ++ toString (read16 w.mem (start + k * step + 2)) ++ "\n") ∧
      (∀ a, Event.load16 a ∈ sfx → start ≤ a ∧ a + 2 ≤ start + frames * step) := by
  refine ⟨_, drainLoop_eq _ _ frames fuel _ w hfuel (frames_aligned _ _ _ (by omega)),
    drainEvents_fileText _ _ _ _, ?_⟩
  intro a ha
  obtain ⟨k, hk, hk'⟩ := drainEvents_loadAddr _ _ _ _ a ha
  have h1 : (k + 1) * step ≤ frames * step := Nat.mul_le_mul_right _ (by omega)
  rw [Nat.add_mul, Nat.one_mul] at h1
  rcases hk' with rfl | rfl <;> constructor <;> omega

/-! ## Claims on configuration, lookup and shutdown -/

/-- C1: when the PHY and LO channels resolve, `cfg_ad9361_streaming_ch` issues the
attribute writes in the order `rf_port_select`, `rf_bandwidth`,
`sampling_frequency` (on the PHY channel `pc`), `frequency` (on the LO channel
`lc`).  With `r1 .. r4` the values `errchk` receives for the four writes (for the
first the `ssize_t` result converted to `int`): the writes in the trace are the
four in this order when none is negative, and otherwise they stop with the first
write whose value is negative, after which `shutdown` runs and the process
exits. -/
theorem cfg_ad9361_streaming_ch_write_order (env : Env) (ctx : Nat) (cfg : stream_cfg)
    (type : iodev) (chid : Int) (w : World)
    (phy pc lc : Nat) (r1 r2 r3 r4 : Int)
    (hphy : env.find_device ctx "ad9361-phy" = some phy)
    (hpc : env.find_channel phy (get_ch_name "voltage" chid) (type == .TX) = some pc)
    (hlc : env.find_channel phy (get_ch_name "altvoltage" (if type = .TX then 1 else 0)) true
      = some lc)
    (h1 : narrowToInt (env.attr_write pc "rf_port_select" cfg.rfport) = r1)
    (h2 : env.attr_write_longlong pc "rf_bandwidth" cfg.bw_hz = r2)
    (h3 : env.attr_write_longlong pc "sampling_frequency" cfg.fs_hz = r3)
    (h4 : env.attr_write_longlong lc "frequency" cfg.lo_hz = r4) :
    ∃ w' sfx,
      (cfg_ad9361_streaming_ch env ctx cfg type chid w).world = w' ∧
      w'.trace = w.trace ++ sfx ∧
      (0 ≤ r1 → 0 ≤ r2 → 0 ≤ r3 → 0 ≤ r4 →
        cfg_ad9361_streaming_ch env ctx cfg type chid w = .ret true w' ∧
        sfx.filter Event.isAttrWrite =
          [.attr_write pc "rf_port_select" cfg.rfport,
           .attr_write_longlong pc "rf_bandwidth" cfg.bw_hz,
           .attr_write_longlong pc "sampling_frequency" cfg.fs_hz,
           .attr_write_longlong lc "frequency" cfg.lo_hz] ∧
        sfx.filter Event.isExit = []) ∧
      (r1 < 0 →
        cfg_ad9361_streaming_ch env ctx cfg type chid w = .exited 0 w' ∧
        sfx.filter Event.isAttrWrite = [.attr_write pc "rf_port_select" cfg.rfport] ∧
        shutdownTrace w.g <:+ sfx) ∧
      (0 ≤ r1 → r2 < 0 →
        cfg_ad9361_streaming_ch env ctx cfg type chid w = .exited 0 w' ∧
        sfx.filter Event.isAttrWrite =
          [.attr_write pc "rf_port_select" cfg.rfport,
           .attr_write_longlong pc "rf_bandwidth" cfg.bw_hz] ∧
        shutdownTrace w.g <:+ sfx) ∧
      (0 ≤ r1 → 0 ≤ r2 → r3 < 0 →
        cfg_ad9361_streaming_ch env ctx cfg type chid w = .exited 0 w' ∧
        sfx.filter Event.isAttrWrite =
          [.attr_write pc "rf_port_select" cfg.rfport,
           .attr_write_longlong pc "rf_bandwidth" cfg.bw_hz,
           .attr_write_longlong pc "sampling_frequency" cfg.fs_hz] ∧
        shutdownTrace w.g <:+ sfx) ∧
      (0 ≤ r1 → 0 ≤ r2 → 0 ≤ r3 → r4 < 0 →
        cfg_ad9361_streaming_ch env ctx cfg type chid w = .exited 0 w' ∧
        sfx.filter Event.isAttrWrite =
          [.attr_write pc "rf_port_select" cfg.rfport,
           .attr_write_longlong pc "rf_bandwidth" cfg.bw_hz,
           .attr_write_longlong pc "sampling_frequency" cfg.fs_hz,
           .attr_write_longlong lc "frequency" cfg.lo_hz] ∧
        shutdownTrace w.g <:+ sfx) := by
  have hA := shutdownTrace_attrWrite w.g
  rw [cfg_ad9361_streaming_ch_eq env ctx cfg type chid w phy pc lc hphy hpc hlc, h1, h2, h3, h4]
  by_cases c1 : r1 < 0
  · rw [if_pos c1]
    refine ⟨_, _, rfl, rfl, ?_⟩
    simp [Outcome.world, Event.isAttrWrite, errchkMsg, List.filter_cons, hA, List.suffix_cons_iff, List.suffix_refl, not_le.mpr c1, c1]
  · rw [if_neg c1]
    by_cases c2 : r2 < 0
    · rw [if_pos c2]
      refine ⟨_, _, rfl, rfl, ?_⟩
      simp [Outcome.world, Event.isAttrWrite, errchkMsg, List.filter_cons, hA, List.suffix_cons_iff, List.suffix_refl, not_le.mpr c2, c1, c2]
    · rw [if_neg c2]
      by_cases c3 : r3 < 0
      · rw [if_pos c3]
        refine ⟨_, _, rfl, rfl, ?_⟩
        simp [Outcome.world, Event.isAttrWrite, errchkMsg, List.filter_cons, hA, List.suffix_cons_iff, List.suffix_refl, not_le.mpr c3,
          c1, c2, c3]
      · rw [if_neg c3]
        by_cases c4 : r4 < 0
        · rw [if_pos c4]
          refine ⟨_, _, rfl, rfl, ?_⟩
          simp [Outcome.world, Event.isAttrWrite, errchkMsg, List.filter_cons, hA, List.suffix_cons_iff, List.suffix_refl, not_le.mpr c4,
            c1, c2, c3, c4]
        · rw [if_neg c4]
          refine ⟨_, _, rfl, rfl, ?_⟩
          simp [Outcome.world, Event.isAttrWrite, Event.isExit, List.filter_cons, c1, c2, c3, c4]

/-- C1 at two concrete inputs.  In `exampleEnv` the third write is rejected: the
trace holds the first three writes and no write of `frequency`, and the process
exits.  In `wrapEnv` the first write returns `4294967295`, which `errchk` receives
as `-1`: the trace holds the first write only, and the process exits. -/
theorem cfg_ad9361_streaming_ch_write_order_witness :
    (∃ w' sfx,
      cfg_ad9361_streaming_ch (exampleEnv 2) 1 exampleCfg .RX 0 exampleWorld = .exited 0 w' ∧
      w'.trace = exampleWorld.trace ++ sfx ∧
      sfx.filter Event.isAttrWrite =
        [.attr_write 2 "rf_port_select" "A_BALANCED",
         .attr_write_longlong 2 "rf_bandwidth" 16000000,
         .attr_write_longlong 2 "sampling_frequency" 30720000]) ∧
    (∃ w' sfx,
      cfg_ad9361_streaming_ch wrapEnv 1 exampleCfg .RX 0 exampleWorld = .exited 0 w' ∧
      w'.trace = exampleWorld.trace ++ sfx ∧
      sfx.filter Event.isAttrWrite = [.attr_write 2 "rf_port_select" "A_BALANCED"]) := by
  constructor
  · obtain ⟨w', sfx, _, h2, _, _, _, h6, _⟩ :=
      cfg_ad9361_streaming_ch_write_order (exampleEnv 2) 1 exampleCfg .RX 0 exampleWorld
        1 2 3 0 0 (-22) 0 rfl rfl rfl rfl rfl rfl rfl
    have h := h6 (by decide) (by decide) (by decide)
    exact ⟨w', sfx, h.1, h2, h.2.1⟩
  · obtain ⟨w', sfx, _, h2, _, h4, _⟩ :=
      cfg_ad9361_streaming_ch_write_order wrapEnv 1 exampleCfg .RX 0 exampleWorld
        1 2 3 (-1) 0 (-22) 0 rfl rfl rfl rfl rfl rfl rfl
    have h := h4 (by decide)
    exact ⟨w', sfx, h.1, h2, h.2.1⟩

/-- C2: for every device, direction and channel id (an `int`),
`get_ad9361_stream_ch` first looks up `"voltage<id>"`; it looks up
`"altvoltage<id>"` (same direction) exactly when that lookup found nothing; when
the voltage lookup succeeds its channel is returned after that single lookup; and
the function returns false exactly when both lookups fail. -/
theorem get_ad9361_stream_ch_fallback (env : Env) (d : iodev) (dev : Nat) (chid : Int)
    (w : World)
    (hid : -2147483648 ≤ chid ∧ chid ≤ 2147483647) :
    ∃ r w' suffix,
      get_ad9361_stream_ch env d dev chid w = .ret r w' ∧
      w'.trace = w.trace ++ suffix ∧ w'.g = w.g ∧
      suffix.head? = some (.find_channel dev ("voltage" ++ toString chid) (d == .TX)) ∧
      (Event.find_channel dev ("altvoltage" ++ toString chid) (d == .TX) ∈ suffix ↔
        env.find_channel dev ("voltage" ++ toString chid) (d == .TX) = none) ∧
      (∀ c, env.find_channel dev ("voltage" ++ toString chid) (d == .TX) = some c →
        r = (true, some c) ∧
        suffix = [.find_channel dev ("voltage" ++ toString chid) (d == .TX)]) ∧
      (env.find_channel dev ("voltage" ++ toString chid) (d == .TX) = none →
        r.2 = env.find_channel dev ("altvoltage" ++ toString chid) (d == .TX) ∧
        suffix = [.find_channel dev ("voltage" ++ toString chid) (d == .TX),
          .find_channel dev ("altvoltage" ++ toString chid) (d == .TX)]) ∧
      (r.1 = false ↔
        env.find_channel dev ("voltage" ++ toString chid) (d == .TX) = none ∧
        env.find_channel dev ("altvoltage" ++ toString chid) (d == .TX) = none) ∧
      (r.1 = r.2.isSome) := by
  have hv := get_ch_name_eq "voltage" chid (by decide) hid
  have ha := get_ch_name_eq "altvoltage" chid (by decide) hid
  have hne := voltage_ne_altvoltage (toString chid)
  rw [get_ad9361_stream_ch_eq, hv, ha]
  cases h : env.find_channel dev ("voltage" ++ toString chid) (d == .TX) with
  | some c =>
    refine ⟨_, _, _, rfl, rfl, rfl, ?_⟩
    simp [hne.symm]
  | none =>
    refine ⟨_, _, _, rfl, rfl, rfl, ?_⟩
    simp

/-- C2 at a concrete input: the voltage lookup succeeds and is the only lookup. -/
theorem get_ad9361_stream_ch_fallback_witness :
    ∃ r w' sfx,
      get_ad9361_stream_ch (exampleEnv 2) .RX 9 1 exampleWorld = .ret r w' ∧
      w'.trace = exampleWorld.trace ++ sfx ∧
      r = (true, some 2) ∧ sfx = [.find_channel 9 ("voltage" ++ toString (1 : Int)) false] := by
  obtain ⟨r, w', sfx, h1, h2, _, _, _, h6, _⟩ :=
    get_ad9361_stream_ch_fallback (exampleEnv 2) .RX 9 1 exampleWorld (by decide)
  have h := h6 2 rfl
  exact ⟨r, w', sfx, h1, h2, h.1, h.2⟩

/-- C3: from every state of the static handles, `shutdown` performs exactly the
release actions of the handles that are present, in the order RX buffer, TX
buffer, RX-I, RX-Q, TX-I, TX-Q, context, and ends in `exit(0)`; an absent handle
contributes nothing.  In particular no buffer is destroyed when neither buffer
exists. -/
theorem shutdown_releases_present_handles (w : World) :
    shutdown w = .exited 0 { w with trace := w.trace ++ shutdownTrace w.g } ∧
    (shutdownTrace w.g).filter Event.isRelease =
      w.g.rxbuf.toList.map .buffer_destroy ++ w.g.txbuf.toList.map .buffer_destroy
        ++ w.g.rx0_i.toList.map .channel_disable ++ w.g.rx0_q.toList.map .channel_disable
        ++ w.g.tx0_i.toList.map .channel_disable ++ w.g.tx0_q.toList.map .channel_disable
        ++ w.g.ctx.toList.map .context_destroy ∧
    (shutdownTrace w.g).getLast? = some (.exit 0) ∧
    (w.g.rxbuf = none → w.g.txbuf = none →
      (shutdownTrace w.g).filter Event.isBufferDestroy = []) := by
  refine ⟨shutdown_eq w, shutdownTrace_release w.g, shutdownTrace_getLast _, ?_⟩
  intro h1 h2
  rw [shutdownTrace_bufferDestroy, h1, h2]
  rfl

/-- C3 at a concrete input: only the context and the two RX channels exist. -/
theorem shutdown_releases_present_handles_witness :
    (shutdownTrace partialGlobals).filter Event.isRelease
      = [.channel_disable 2, .channel_disable 3, .context_destroy 1] ∧
    (shutdownTrace partialGlobals).filter Event.isBufferDestroy = [] :=
  have h := shutdown_releases_present_handles ⟨partialGlobals, fun _ => 0, []⟩
  ⟨h.2.1, h.2.2.2 rfl rfl⟩

/-- C4: two invocations of `shutdown` in succession do what one does: the first
ends the process in `exit(0)`, so the second performs no action.  The run ends in
`exit(0)` (no failed assertion, no undefined behaviour), and with pairwise
distinct buffer handles and pairwise distinct channel handles no release action
occurs twice in its trace. -/
theorem shutdown_twice_no_double_release (w : World)
    (hbuf : (w.g.rxbuf.toList ++ w.g.txbuf.toList).Nodup)
    (hchn : (w.g.rx0_i.toList ++ w.g.rx0_q.toList ++ w.g.tx0_i.toList ++ w.g.tx0_q.toList).Nodup) :
    (do shutdown; shutdown : Prog Unit) w = shutdown w ∧
    (do shutdown; shutdown : Prog Unit) w
      = .exited 0 { w with trace := w.trace ++ shutdownTrace w.g } ∧
    ((shutdownTrace w.g).filter Event.isRelease).Nodup ∧
    (shutdownTrace w.g).filter Event.isExit = [.exit 0] := by
  refine ⟨?_, ?_, ?_, shutdownTrace_exit _⟩
  · simp [Prog.bind, shutdown_eq]
  · simp [Prog.bind, shutdown_eq]
  · rw [shutdownTrace_release]
    rcases w with ⟨⟨c, a1, a2, a3, a4, b1, b2⟩, m, t⟩
    simp only at hbuf hchn ⊢
    cases c <;> cases a1 <;> cases a2 <;> cases a3 <;> cases a4 <;> cases b1 <;> cases b2 <;>
      simp_all [List.nodup_cons] 

/-- C4 at a concrete input: all seven handles present. -/
theorem shutdown_twice_no_double_release_witness :
    (do shutdown; shutdown : Prog Unit) exampleWorld = shutdown exampleWorld ∧
    ((shutdownTrace exampleWorld.g).filter Event.isRelease).Nodup :=
  have h := shutdown_twice_no_double_release exampleWorld (by decide) (by decide)
  ⟨h.1, h.2.2.1⟩

/-- C10: for both directions `get_lo_chan` looks up, on the PHY device, a channel
with the output flag set, named `"altvoltage0"` for RX and `"altvoltage1"` for
TX (the two lookups differ in the index only), and it returns true exactly when
the lookup finds a channel. -/
theorem get_lo_chan_output_channel (env : Env) (ctx : Nat) (d : iodev) (w : World) (phy : Nat)
    (hphy : env.find_device ctx "ad9361-phy" = some phy) :
    ∃ r w',
      get_lo_chan env ctx d w = .ret r w' ∧
      w'.trace = w.trace ++ [.find_device ctx "ad9361-phy",
        .find_channel phy (match d with | .RX => "altvoltage0" | .TX => "altvoltage1") true] ∧
      r.2 = env.find_channel phy (match d with | .RX => "altvoltage0" | .TX => "altvoltage1") true ∧
      (r.1 = true ↔ ∃ c,
        env.find_channel phy (match d with | .RX => "altvoltage0" | .TX => "altvoltage1") true
          = some c) := by
  have h0 : get_ch_name "altvoltage" 0 = "altvoltage0" := by decide
  have h1 : get_ch_name "altvoltage" 1 = "altvoltage1" := by decide
  rw [get_lo_chan_eq env ctx d w phy hphy]
  cases d
  · refine ⟨_, _, rfl, ?_, ?_, ?_⟩ <;> simp [h0, Option.isSome_iff_exists]
  · refine ⟨_, _, rfl, ?_, ?_, ?_⟩ <;> simp [h1, Option.isSome_iff_exists]

/-- C10 at a concrete input: the RX lookup. -/
theorem get_lo_chan_output_channel_witness :
    ∃ r w',
      get_lo_chan (exampleEnv 2) 1 .RX exampleWorld = .ret r w' ∧
      w'.trace = [.find_device 1 "ad9361-phy", .find_channel 1 "altvoltage0" true] ∧
      r.1 = true := by
  obtain ⟨r, w', h1, h2, _, h4⟩ :=
    get_lo_chan_output_channel (exampleEnv 2) 1 .RX exampleWorld 1 rfl
  exact ⟨r, w', h1, h2, h4.mpr ⟨3, rfl⟩⟩

/-! ## Claims on the streaming loop -/

/-- C9, what the code does: the drain asks `iio_buffer_first` for the Q channel
`rx0_q`, so with the I and the Q channel enabled (frames of four bytes from
`start`, I at offset 0, Q at offset 2) its pointer starts two bytes into frame 0.
The drain then writes `frames` lines, but line `k` holds the Q sample of frame
`k` followed by the I sample of frame `k + 1`, not I and Q of frame `k`, and the
second load of the last line is at the end marker. -/
theorem rx_drain_shifted_by_anchor (env : Env) (inner n : Nat) (w : World)
    (rx cq start frames : Nat)
    (hrx : w.g.rxbuf = some rx) (hq : w.g.rx0_q = some cq)
    (hfirst : env.buffer_first n rx cq = start + 2) (hstep : env.buffer_step n rx = 4)
    (hend : env.buffer_end n rx = start + frames * 4)
    (hpos : 1 ≤ frames) (hfuel : frames < inner) :
    ∃ sfx,
      drainPhase env inner n w = .ret () ⟨w.g, w.mem, w.trace ++ sfx⟩ ∧
      sfx.filterMap Event.fileText =
        (List.range frames).map (fun k =>
          toString (read16 w.mem (start + k * 4 + 2)) ++ ","
            ++ toString (read16 w.mem (start + (k + 1) * 4)) ++ "\n") ∧
      Event.load16 (env.buffer_end n rx) ∈ sfx := by
  have hgeo : ∀ k, k < frames ↔
      env.buffer_first n rx cq + k * env.buffer_step n rx < env.buffer_end n rx := by
    intro k
    rw [hfirst, hstep, hend]
    omega
  refine ⟨_, drainPhase_geo env inner n w rx cq frames hrx hq hgeo hfuel, ?_, ?_⟩
  · rw [drainEvents_fileText, hfirst, hstep]
    apply List.map_congr_left
    intro k _
    have e1 : start + 2 + k * 4 = start + k * 4 + 2 := by omega
    have e2 : start + 2 + k * 4 + 2 = start + (k + 1) * 4 := by omega
    rw [e1, ← e2, e1]
    rfl
  · have h := (drainEvents_mem_load w.mem (env.buffer_step n rx) frames
      (env.buffer_first n rx cq) (frames - 1) (by omega)).2
    have e : env.buffer_first n rx cq + (frames - 1) * env.buffer_step n rx + 2
        = env.buffer_end n rx := by
      rw [hfirst, hstep, hend]
      omega
    rw [e] at h
    exact h

/-- C9 at a concrete input: an RX buffer of two frames at addresses 0 to 7 with
the samples `(1, -2)` and `(3, 4)`, and the value 7 behind it.  The drain writes
`-2,3` and `4,7`, not `1,-2` and `3,4`, and loads from the end marker, address 8. -/
theorem rx_drain_shifted_by_anchor_witness :
    ∃ sfx,
      drainPhase (libiioEnv 2) 3 0 sampleWorld
        = .ret () ⟨sampleWorld.g, sampleWorld.mem, sampleWorld.trace ++ sfx⟩ ∧
      sfx.filterMap Event.fileText = ["-2,3\n", "4,7\n"] ∧
      Event.load16 8 ∈ sfx ∧
      (libiioEnv 2).buffer_end 0 7 = 8 ∧
      [read16 sampleMem 0, read16 sampleMem 2, read16 sampleMem 4, read16 sampleMem 6]
        = [1, -2, 3, 4] := by
  obtain ⟨sfx, h1, h2, h3⟩ :=
    rx_drain_shifted_by_anchor (libiioEnv 2) 3 0 sampleWorld 7 3 0 2 rfl rfl rfl rfl rfl
      (by decide) (by decide)
  refine ⟨sfx, h1, ?_, h3, rfl, by decide⟩
  rw [h2]
  decide

/-- C5, what the code does instead: with a source of `N ≥ 1` records that the
pre-load can convert, every fill step returns after it has visited the frame
pointers `first + k * step` below the end marker, `first` being what
`iio_buffer_first` returns for `tx0_q`, and stored at pointer `k` and two bytes
further the I and Q values the pre-load derived from source record
`min k (N - 1)`: record `k` while the source lasts, the last record from then on.
These are the values the two places hold when the fill step returns. -/
theorem tx_fill_repeats_last_record (env : Env) (src : List Record) (inner n : Nat) (w : World)
    (tx ctq frames first step : Nat)
    (hN : 1 ≤ src.length) (hconv : ∀ r ∈ src, ∃ row, scaleRow r = some row)
    (htx : w.g.txbuf = some tx) (htq : w.g.tx0_q = some ctq)
    (hfirst : env.buffer_first n tx ctq = first) (hstep : env.buffer_step n tx = step)
    (h4 : 4 ≤ step) (hgeo : ∀ k, k < frames ↔ first + k * step < env.buffer_end n tx)
    (hframes : frames ≤ bufferSize) (hfuel : frames < inner) :
    ∃ tbl w' sfx,
      preload src = some tbl ∧ fillPhase env tbl inner n w = .ret () w' ∧
      w'.trace = w.trace ++ sfx ∧ sfx.length = 2 * frames ∧
      ∀ k r, k < frames → src.get? (min k (src.length - 1)) = some r →
        ∃ row, scaleRow r = some row ∧
          Event.store16 (first + k * step) row.c0 ∈ sfx ∧
          Event.store16 (first + k * step + 2) row.c1 ∈ sfx ∧
          read16 w'.mem (first + k * step) = row.c0 ∧
          read16 w'.mem (first + k * step + 2) = row.c1 := by
  subst hfirst hstep
  obtain ⟨tbl, ht, hlen, hrows⟩ :=
    preload_some src (by intro h; rw [h] at hN; simp at hN) hconv
  obtain ⟨w', hw, _, htr, hmem⟩ :=
    fillPhase_geo env tbl inner n w tx ctq frames htx htq h4 hgeo (by omega) hfuel
  refine ⟨tbl, w', _, ht, hw, htr, ?_, ?_⟩
  · rw [fillEvents_length, List.length_take]
    omega
  · intro k r hk hr
    obtain ⟨row, h1, h2, h3⟩ := hrows k r (by omega) hr
    have hget' : (tbl.take frames).get? k = some row := by
      rw [List.get?_eq_getElem?, List.getElem?_take_of_lt hk, ← List.get?_eq_getElem?, h2]
    obtain ⟨s1, s2⟩ := fillEvents_mem_store _ _ (env.buffer_first n tx ctq) k row hget'
    obtain ⟨m1, m2⟩ := hmem k row hk h2 h3
    exact ⟨row, h1, s1, s2, m1, m2⟩

/-- C5 amended, at a concrete input: a source of two records and a TX buffer of
4200 frames with the pointers libiio returns; at the third frame pointer the fill
stores the values of record 1, and they are there when it returns. -/
theorem tx_fill_repeats_last_record_witness :
    ∃ tbl w' sfx,
      preload shortSrc = some tbl ∧
      fillPhase (libiioEnv 4200) tbl 4201 0 exampleWorld = .ret () w' ∧
      w'.trace = exampleWorld.trace ++ sfx ∧
      Event.store16 (100002 + 2 * 4) 9600 ∈ sfx ∧ Event.store16 (100002 + 2 * 4 + 2) 12800 ∈ sfx ∧
      read16 w'.mem (100002 + 2 * 4) = 9600 ∧ read16 w'.mem (100002 + 2 * 4 + 2) = 12800 := by
  obtain ⟨tbl, w', sfx, h1, h2, h3, _, h5⟩ :=
    tx_fill_repeats_last_record (libiioEnv 4200) shortSrc 4201 0 exampleWorld 8 5 4200 100002 4
      (by decide) shortSrc_convertible rfl rfl rfl rfl (by decide)
      (by intro k; show k < 4200 ↔ 100002 + k * 4 < 100000 + 4200 * 4; omega)
      (by decide) (by decide)
  obtain ⟨row, e1, e2, e3, e4, e5⟩ := h5 2 ⟨3, 4, 5, 6⟩ (by decide) rfl
  rw [scaleRow_3456] at e1
  cases e1
  exact ⟨tbl, w', sfx, h1, h2, h3, e2, e3, e4, e5⟩

/-- C5 as stated fails: with the two-record source `shortSrc` and a TX buffer of
4200 frames of four bytes from address 100000, record `2 mod 2 = 0` converts to
`(3200, 6400)`, but after the fill frame 2 (addresses 100008 to 100011) holds
`(12800, 9600)`, and the places of the third frame pointer (100010 and 100012)
hold `(9600, 12800)`, the values of record 1. -/
theorem tx_fill_not_cyclic :
    ∃ tbl w' row0,
      preload shortSrc = some tbl ∧
      fillPhase (libiioEnv 4200) tbl 4201 0 exampleWorld = .ret () w' ∧
      shortSrc.get? (2 % shortSrc.length) = some ⟨1, 2, 3, 4⟩ ∧
      scaleRow ⟨1, 2, 3, 4⟩ = some row0 ∧ row0.c0 = 3200 ∧ row0.c1 = 6400 ∧
      read16 w'.mem 100008 = 12800 ∧ read16 w'.mem 100010 = 9600 ∧
      read16 w'.mem 100012 = 12800 ∧
      ¬ (read16 w'.mem 100008 = row0.c0 ∧ read16 w'.mem 100010 = row0.c1) ∧
      ¬ (read16 w'.mem 100010 = row0.c0 ∧ read16 w'.mem 100012 = row0.c1) := by
  obtain ⟨tbl, ht, hlen, hrows⟩ := preload_some shortSrc (by simp [shortSrc]) shortSrc_convertible
  obtain ⟨w', hw, _, _, hmem⟩ :=
    fillPhase_geo (libiioEnv 4200) tbl 4201 0 exampleWorld 8 5 4200 rfl rfl (by decide)
      (by intro k; show k < 4200 ↔ 100002 + k * 4 < 100000 + 4200 * 4; omega)
      (by rw [hlen]; decide) (by decide)
  obtain ⟨r1, a1, a2, a3⟩ := hrows 1 ⟨3, 4, 5, 6⟩ (by decide) rfl
  obtain ⟨r2, b1, b2, b3⟩ := hrows 2 ⟨3, 4, 5, 6⟩ (by decide) rfl
  rw [scaleRow_3456] at a1 b1
  cases a1
  cases b1
  have hm1 := hmem 1 _ (by decide) a2 a3
  have hm2 := hmem 2 _ (by decide) b2 b3
  have e1 : read16 w'.mem 100008 = 12800 := hm1.2
  have e2 : read16 w'.mem 100010 = 9600 := hm2.1
  have e3 : read16 w'.mem 100012 = 12800 := hm2.2
  refine ⟨tbl, w', _, ht, hw, rfl, scaleRow_1234, rfl, rfl, e1, e2, e3, ?_, ?_⟩
  · rw [e1]; intro h; exact absurd h.1 (by decide)
  · rw [e2]; intro h; exact absurd h.1 (by decide)

/-- C7: the order of the actions in the streaming loop and the content of each
push.  (1) An iteration that runs to its end has appended to the trace, in this
order, the push of the TX buffer (handing over memory as it was when the
iteration began), the refill of the RX buffer, the events of the drain (loads and
lines written to the sink) and the events of the fill (stores).  (2) When the
loop started in `w0` gets to iteration `n + 1` in state `w`, then iteration `n`
ran push, refill, drain and fill in this order, `w` is the state in which its
fill step returned, and if `stop` is clear the run continues with the push of
exactly the memory of `w`.  That memory is what the fill wrote: over the `frames`
frame pointers `first + k * step` its fill visited (`step ≥ 4`), the last events
of the trace are the stores of the table rows, and the memory handed to the push
holds at pointer `k` and two bytes further the values `c0` and `c1` of row `k`.
(3) If `stop` is clear at the start, the first action of the run is the push of
the initial memory. -/
theorem streaming_loop_order (env : Env) (tbl : List Row) (inner : Nat) (w0 : World) :
    (∀ n w w', iteration env tbl inner n w = .ret () w' →
      ∃ tx rx drain fill,
        w.g.txbuf = some tx ∧ w.g.rxbuf = some rx ∧
        w'.trace = w.trace ++ [.buffer_push tx w.mem, .buffer_refill rx] ++ drain ++ fill ∧
        (∀ e ∈ drain, e.isDrain = true) ∧ (∀ e ∈ fill, e.isStore = true)) ∧
    (∀ n w, stateAt env tbl inner w0 (n + 1) = some w →
      ∃ wp w1 w2 wd tx ctq,
        stateAt env tbl inner w0 n = some wp ∧
        pushPhase env n wp = .ret () w1 ∧ refillPhase env n w1 = .ret () w2 ∧
        drainPhase env inner n w2 = .ret () wd ∧ fillPhase env tbl inner n wd = .ret () w ∧
        w.g.txbuf = some tx ∧ w.g.tx0_q = some ctq ∧
        (env.stop (n + 1) = false → ∀ fuel, ∃ rest,
          (streamLoop env tbl inner (n + 1 + (fuel + 1)) 0 w0).world.trace
            = w.trace ++ .buffer_push tx w.mem :: rest) ∧
        (∀ frames, 4 ≤ env.buffer_step n tx →
          (∀ k, k < frames ↔
            env.buffer_first n tx ctq + k * env.buffer_step n tx < env.buffer_end n tx) →
          frames ≤ tbl.length → frames < inner →
          w.trace = wd.trace ++ fillEvents (env.buffer_step n tx) (tbl.take frames)
            (env.buffer_first n tx ctq) ∧
          ∀ k row, k < frames → tbl.get? k = some row → row.inRange →
            Event.store16 (env.buffer_first n tx ctq + k * env.buffer_step n tx) row.c0
              ∈ fillEvents (env.buffer_step n tx) (tbl.take frames) (env.buffer_first n tx ctq) ∧
            Event.store16 (env.buffer_first n tx ctq + k * env.buffer_step n tx + 2) row.c1
              ∈ fillEvents (env.buffer_step n tx) (tbl.take frames) (env.buffer_first n tx ctq) ∧
            read16 w.mem (env.buffer_first n tx ctq + k * env.buffer_step n tx) = row.c0 ∧
            read16 w.mem (env.buffer_first n tx ctq + k * env.buffer_step n tx + 2) = row.c1)) ∧
    (∀ tx, w0.g.txbuf = some tx → env.stop 0 = false → ∀ fuel, ∃ rest,
      (streamLoop env tbl inner (fuel + 1) 0 w0).world.trace
        = w0.trace ++ .buffer_push tx w0.mem :: rest) := by
  refine ⟨?_, ?_, ?_⟩
  · intro n w w' h
    obtain ⟨tx, rx, drain, fill, _, h1, h2, _, h4, h5, h6, _, _⟩ :=
      iteration_ret env tbl inner n w w' h
    exact ⟨tx, rx, drain, fill, h1, h2, h4, h5, h6⟩
  · intro n w h
    obtain ⟨wp, hwp, _, hit⟩ := stateAt_succ env tbl inner w0 w n h
    obtain ⟨w1, w2, wd, c1, c2, c3, c4⟩ := iteration_ret_chain env tbl inner n wp w hit
    obtain ⟨hg, tx, ctq, htx', htq'⟩ := fillPhase_ret_handles env tbl inner n wd w c4
    have htx : w.g.txbuf = some tx := by rw [hg, htx']
    have htq : w.g.tx0_q = some ctq := by rw [hg, htq']
    refine ⟨wp, w1, w2, wd, tx, ctq, hwp, c1, c2, c3, c4, htx, htq, ?_, ?_⟩
    · intro hstop fuel
      rw [stateAt_streamLoop env tbl inner w0 (n + 1) w h (fuel + 1)]
      exact streamLoop_starts env tbl inner fuel (n + 1) w tx htx hstop
    · intro frames h4 hgeo hrows hfuel
      obtain ⟨w', hw', _, htr, hmem⟩ :=
        fillPhase_geo env tbl inner n wd tx ctq frames htx' htq' h4 hgeo hrows hfuel
      rw [c4] at hw'
      cases hw'
      refine ⟨htr, ?_⟩
      intro k row hk hget hrange
      have hget' : (tbl.take frames).get? k = some row := by
        rw [List.get?_eq_getElem?, List.getElem?_take_of_lt hk, ← List.get?_eq_getElem?, hget]
      obtain ⟨s1, s2⟩ := fillEvents_mem_store _ _ (env.buffer_first n tx ctq) k row hget'
      obtain ⟨m1, m2⟩ := hmem k row hk hget hrange
      exact ⟨s1, s2, m1, m2⟩
  · intro tx htx hstop fuel
    exact streamLoop_starts env tbl inner fuel 0 w0 tx htx hstop

/-- C7 at a concrete input: with the pointers libiio returns and the table
`exampleTbl`, the loop gets to iteration 1, the run continues there with the push
of the memory the fill of iteration 0 left, and that memory holds the values
`1, 2` and `5, 6` the fill stored at its two frame pointers. -/
theorem streaming_loop_order_witness :
    ∃ w wd rest,
      stateAt (libiioEnv 2) exampleTbl 3 exampleWorld 1 = some w ∧
      fillPhase (libiioEnv 2) exampleTbl 3 0 wd = .ret () w ∧
      (streamLoop (libiioEnv 2) exampleTbl 3 (0 + 1 + (4 + 1)) 0 exampleWorld).world.trace
        = w.trace ++ .buffer_push 8 w.mem :: rest ∧
      w.trace = wd.trace ++ [.store16 100002 1, .store16 100004 2, .store16 100006 5,
        .store16 100008 6] ∧
      read16 w.mem 100002 = 1 ∧ read16 w.mem 100004 = 2 ∧
      read16 w.mem 100006 = 5 ∧ read16 w.mem 100008 = 6 := by
  obtain ⟨w, hw⟩ := stateAt_some (libiioEnv 2) exampleTbl 3 exampleWorld 8 7 3 5
    (fun _ => 2) (fun _ => 2) rfl rfl rfl rfl 1
    (by
      intro j hj
      refine ⟨rfl, by simp [libiioEnv, exampleEnv], by simp [libiioEnv, exampleEnv]; omega,
        ?_, ?_, Nat.le_refl 2, Nat.lt_succ_self 2, Nat.lt_succ_self 2⟩
      · intro k; simp [libiioEnv, exampleEnv]; omega
      · intro k; simp [libiioEnv, exampleEnv]; omega) 1 (by decide)
  obtain ⟨_, _, _, wd, tx, ctq, _, _, _, _, h1, h2, h2', h3, h4⟩ :=
    (streaming_loop_order (libiioEnv 2) exampleTbl 3 exampleWorld).2.1 0 w hw
  have hg := (stateAt_inv _ _ _ _ _ _ hw).1
  have htx : tx = 8 := by
    rw [hg] at h2
    exact (Option.some.inj h2).symm
  have htq : ctq = 5 := by
    rw [hg] at h2'
    exact (Option.some.inj h2').symm
  subst htx htq
  obtain ⟨rest, h5⟩ := h3 rfl 4
  obtain ⟨h6, h7⟩ := h4 2 (by decide)
    (by intro k; show k < 2 ↔ 100002 + k * 4 < 100000 + 2 * 4; omega) (by decide) (by decide)
  obtain ⟨_, _, a1, a2⟩ := h7 0 ⟨1, 2, 3, 4⟩ (by decide) rfl (by unfold Row.inRange; decide)
  obtain ⟨_, _, b1, b2⟩ := h7 1 ⟨5, 6, 7, 8⟩ (by decide) rfl (by unfold Row.inRange; decide)
  exact ⟨w, wd, rest, hw, h1, h5, h6, a1, a2, b1, b2⟩

/-- C8: a failed transfer in iteration `n`.  Let the loop started in `w0` (whose
trace holds no `exit`) get to iteration `n` in state `w` with `stop` clear.  If
the push succeeds and the refill returns a negative value, the run ends in
`exit(0)` after push, refill, the error message and one `shutdown` sequence:
nothing is loaded, written to the sink or stored after the refill, and the whole
trace holds exactly one `exit`.  If the push returns a negative value the same
holds and the refill is not called either. -/
theorem transfer_failure_single_shutdown (env : Env) (tbl : List Row) (inner fuel n : Nat)
    (w0 w : World) (tx rx : Nat)
    (hreach : stateAt env tbl inner w0 n = some w) (hstop : env.stop n = false)
    (htx : w.g.txbuf = some tx) (hrx : w.g.rxbuf = some rx)
    (hclean : w0.trace.filter Event.isExit = []) :
    (0 ≤ env.push_ret n → env.refill_ret n < 0 →
      ∃ sfx,
        sfx = [.buffer_push tx w.mem, .buffer_refill rx, .print "Error refilling buf %d\n"]
          ++ shutdownTrace w.g ∧
        streamLoop env tbl inner (n + (fuel + 1)) 0 w0
          = .exited 0 ⟨w.g, env.refill_mem n (env.push_mem n w.mem), w.trace ++ sfx⟩ ∧
        sfx.filter (fun e => e.isDrain || e.isStore) = [] ∧
        (w.trace ++ sfx).filter Event.isExit = [.exit 0]) ∧
    (env.push_ret n < 0 →
      ∃ sfx,
        sfx = [.buffer_push tx w.mem, .print "Error pushing buf %d\n"] ++ shutdownTrace w.g ∧
        streamLoop env tbl inner (n + (fuel + 1)) 0 w0
          = .exited 0 ⟨w.g, env.push_mem n w.mem, w.trace ++ sfx⟩ ∧
        sfx.filter (fun e => e.isDrain || e.isStore) = [] ∧
        (∀ b, Event.buffer_refill b ∉ sfx) ∧
        (w.trace ++ sfx).filter Event.isExit = [.exit 0]) := by
  have hrun := stateAt_streamLoop env tbl inner w0 n w hreach (fuel + 1)
  have hex : w.trace.filter Event.isExit = [] := by
    rw [(stateAt_inv env tbl inner w0 n w hreach).2, hclean]
  constructor
  · intro hp hr
    refine ⟨_, rfl, ?_, ?_, ?_⟩
    · rw [hrun, streamLoop_succ _ _ _ _ _ _ hstop]
      unfold iteration
      simp only [bind_apply, Prog.bind, pushPhase_eq env n w tx htx, not_lt.mpr hp, if_false]
      rw [refillPhase_eq env n _ _ _ rx hrx]
      simp [hr]
    · rw [List.filter_append, shutdownTrace_noDrainStore]; rfl
    · rw [List.filter_append, List.filter_append, hex, shutdownTrace_exit]; rfl
  · intro hp
    refine ⟨_, rfl, ?_, ?_, ?_, ?_⟩
    · rw [hrun, streamLoop_succ _ _ _ _ _ _ hstop]
      unfold iteration
      simp only [bind_apply, Prog.bind, pushPhase_eq env n w tx htx, hp, if_true]
    · rw [List.filter_append, shutdownTrace_noDrainStore]; rfl
    · intro b hb
      simp only [List.mem_append, List.mem_cons, List.mem_singleton, List.not_mem_nil,
        or_false] at hb
      rcases hb with (h | h) | h
      · cases h
      · cases h
      · have := List.filter_eq_nil_iff.mp (shutdownTrace_noRefill w.g) _ h
        exact this rfl
    · rw [List.filter_append, List.filter_append, hex, shutdownTrace_exit]; rfl

/-- C8 at a concrete input (scenario B): the refill of iteration 5 fails. -/
theorem transfer_failure_single_shutdown_witness :
    ∃ w sfx,
      stateAt (exampleEnv 2) exampleTbl 3 exampleWorld 5 = some w ∧
      sfx = [.buffer_push 8 w.mem, .buffer_refill 7, .print "Error refilling buf %d\n"]
        ++ shutdownTrace w.g ∧
      streamLoop (exampleEnv 2) exampleTbl 3 (5 + (0 + 1)) 0 exampleWorld
        = .exited 0 ⟨w.g, w.mem, w.trace ++ sfx⟩ ∧
      (w.trace ++ sfx).filter Event.isExit = [.exit 0] := by
  obtain ⟨w, hw⟩ := stateAt_some (exampleEnv 2) exampleTbl 3 exampleWorld 8 7 3 5
    (fun _ => 2) (fun _ => 2) rfl rfl rfl rfl 5
    (by
      intro j hj
      refine ⟨rfl, by simp [exampleEnv], by simp [exampleEnv]; omega, ?_, ?_, Nat.le_refl 2,
        Nat.lt_succ_self 2, Nat.lt_succ_self 2⟩
      · intro k; simp [exampleEnv]; omega
      · intro k; simp [exampleEnv]; omega) 5 (by decide)
  have hg := (stateAt_inv _ _ _ _ _ _ hw).1
  obtain ⟨sfx, h1, h2, _, h4⟩ :=
    (transfer_failure_single_shutdown (exampleEnv 2) exampleTbl 3 0 5 exampleWorld w 8 7 hw rfl
      (by rw [hg]; rfl) (by rw [hg]; rfl) rfl).1 (by decide) (by decide)
  exact ⟨w, sfx, hw, h1, h2, h4⟩

end Adrv
